import Mathlib

/-!
Verification model of `backend/services/file_service.py` from the
banana-slides repository: deterministic path layout, versioned page
images, thumbnail-cache derivation, material relocation and lifecycle
deletion over a single storage root.

Strings are modelled as `List Char` (Python `str`), relative paths as
`List (List Char)` of path segments, and the filesystem state as an
explicit association of file paths to file data plus a list of existing
directories.
-/

namespace BananaSlides

/-- A path segment (one component of a relative path). -/
abbrev Seg := List Char

/-- A path relative to the storage root (`upload_folder`), as segments. -/
abbrev FPath := List Seg

/-- Split a character list on `'/'` (raw split; empty components kept). -/
def splitOnSlash : List Char → List Seg
  | [] => [[]]
  | c :: rest =>
    if c = '/' then [] :: splitOnSlash rest
    else
      match splitOnSlash rest with
      | [] => [[c]]
      | s :: ss => (c :: s) :: ss

/-- Parse a path string into segments the way `pathlib.PurePath` does:
split on `'/'`, dropping empty components and `"."` components. -/
def splitSegs (l : List Char) : FPath :=
  (splitOnSlash l).filter (fun s => decide (s ≠ [] ∧ s ≠ ['.']))

/-- Model of `path.replace(chr(92), '/')`: backslash normalisation the
service applies to every externally supplied relative path. -/
def deBack (l : List Char) : List Char :=
  l.map (fun c => if c = '\\' then '/' else c)

/-- Parse an externally supplied relative path string the way the
service does (`self.upload_folder / relative_path.replace('\\', '/')`). -/
def splitRel (l : List Char) : FPath := splitSegs (deBack l)

/-- Join segments back into a POSIX path string (`Path.as_posix`). -/
def joinSegs : FPath → List Char
  | [] => []
  | [s] => s
  | s :: rest => s ++ '/' :: joinSegs rest

/-- A plain path segment: nonempty, no separator characters, not one of
the special components `"."` / `".."`.  Identifiers of the service
(project ids, page ids) are UUID strings in practice; this captures the
spec's "valid" identifiers in the weakest usable form. -/
def PlainSeg (s : Seg) : Prop :=
  s ≠ [] ∧ '/' ∉ s ∧ '\\' ∉ s ∧ s ≠ ['.'] ∧ s ≠ ['.', '.']

instance : DecidablePred PlainSeg := fun s => by unfold PlainSeg; infer_instance

/-- A UUID-shaped identifier: nonempty, alphanumeric-or-hyphen characters
only.  Underscores are excluded because the page-file naming scheme uses
`'_'` as its field separator; glob metacharacters are excluded because
`delete_page_image` interpolates the page id into a glob pattern. -/
def ValidId (s : Seg) : Prop :=
  s ≠ [] ∧ ∀ c ∈ s, c.isAlphanum = true ∨ c = '-'

instance : DecidablePred ValidId := fun s => by unfold ValidId; infer_instance

/-- One step of lexical path resolution: `".."` pops one directory and
escapes the root (`none`) when there is nothing left to pop; any other
segment descends. -/
def resolveStep (acc : Option FPath) (s : Seg) : Option FPath :=
  acc.bind fun st =>
    if s = ['.', '.'] then
      match st with
      | [] => none
      | _ => some st.dropLast
    else some (st ++ [s])

/-- Resolve relative segments against the storage root; `none` means the
path escapes the root. -/
def resolveSegs (segs : FPath) : Option FPath :=
  segs.foldl resolveStep (some [])

/-- The spec's root-confinement predicate on a returned relative path
string: joining it to the storage root resolves to a location inside
the root. -/
def insideRoot (l : List Char) : Bool :=
  (resolveSegs (splitRel l)).isSome

/-- Decimal digit character. -/
def digitChar (n : Nat) : Char :=
  match n with
  | 0 => '0' | 1 => '1' | 2 => '2' | 3 => '3' | 4 => '4'
  | 5 => '5' | 6 => '6' | 7 => '7' | 8 => '8' | _ => '9'

/-- Fuelled decimal rendering (most significant digit first). -/
def natCharsCore : Nat → Nat → List Char → List Char
  | 0, _, acc => acc
  | fuel + 1, n, acc =>
    if n < 10 then digitChar n :: acc
    else natCharsCore fuel (n / 10) (digitChar (n % 10) :: acc)

/-- Decimal rendering of a natural number (Python `str(n)` inside an
f-string). -/
def natChars (n : Nat) : List Char := natCharsCore (n + 1) n []

/-- Index of the rightmost `'.'` in a name (Python `name.rfind('.')`,
with `none` for "not found"). -/
def rfindDot : List Char → Option Nat
  | [] => none
  | c :: rest =>
    match rfindDot rest with
    | some i => some (i + 1)
    | none => if c = '.' then some 0 else none

/-- Model of `pathlib.PurePath.stem` on a file name: the name minus its
suffix, where the suffix is `name[i:]` for `i = name.rfind('.')`
provided `0 < i < len(name) - 1`, and empty otherwise. -/
def pyStem (name : List Char) : List Char :=
  match rfindDot name with
  | some i => if 0 < i ∧ i + 1 < name.length then name.take i else name
  | none => name

/-- Model of `pathlib.PurePath.suffix` on a file name. -/
def pySuffix (name : List Char) : List Char :=
  match rfindDot name with
  | some i => if 0 < i ∧ i + 1 < name.length then name.drop i else []
  | none => []

/-- Python `str.lower()` (ASCII model). -/
def toLowerL (l : List Char) : List Char := l.map Char.toLower

/-- PIL image modes relevant to the service (`L` stands in for the
plain non-alpha, non-RGB modes that take the direct-conversion branch). -/
inductive Mode where
  | RGB | RGBA | LA | P | L
  deriving DecidableEq, Repr

/-- Number of channels of a mode. -/
def Mode.channels : Mode → Nat
  | .RGB => 3
  | .RGBA => 4
  | .LA => 2
  | .P => 1
  | .L => 1

/-- Whether a mode carries transparency (an alpha channel, or a palette
with per-index alpha). -/
def Mode.hasTransparency : Mode → Bool
  | .RGBA => true
  | .LA => true
  | .P => true
  | _ => false

/-- Decoded image (the codec collaborator's pixel-buffer view): mode,
size, pixel accessor returning the channel values of a pixel, and the
palette (index to RGBA quadruple; meaningful for mode `P`, where the
alpha entry models the palette transparency info). -/
structure Img where
  mode : Mode
  width : Nat
  height : Nat
  px : Nat → Nat → List Nat
  palette : Nat → List Nat

/-- Well-channelled image: pixel channel lists have the arity of the
mode, and palette entries are RGBA quadruples. -/
def Img.WF (i : Img) : Prop :=
  (∀ x y, (i.px x y).length = i.mode.channels) ∧ ∀ n, (i.palette n).length = 4

/-- `MULDIV255`: PIL's integer approximation of `a * b / 255`. -/
def muldiv255 (a b : Nat) : Nat :=
  let t := a * b + 128
  (t / 256 + t) / 256

/-- Alpha blend of one channel: background value `b` under source value
`s` with mask value `m` (0 transparent, 255 opaque), as PIL `paste`
with a mask computes it. -/
def blend (m b s : Nat) : Nat := muldiv255 b (255 - m) + muldiv255 s m

/-- `Image.convert('RGB')`: three plain colour channels, transparency
dropped, greyscale replicated, palette looked up. -/
def Img.convertRGB (i : Img) : Img :=
  { i with
    mode := .RGB
    px := fun x y =>
      match i.mode with
      | .RGB => i.px x y
      | .RGBA => (i.px x y).take 3
      | .LA =>
        match i.px x y with
        | l :: _ => [l, l, l]
        | [] => [0, 0, 0]
      | .P => (i.palette ((i.px x y).headD 0)).take 3
      | .L =>
        match i.px x y with
        | l :: _ => [l, l, l]
        | [] => [0, 0, 0] }

/-- `image.convert('RGBA')` on a palette image: palette lookup carrying
the palette's transparency into a real alpha channel. -/
def Img.paletteToRGBA (i : Img) : Img :=
  { i with mode := .RGBA, px := fun x y => i.palette ((i.px x y).headD 0) }

/-- `image.split()[-1]`: the last channel as a mask plane. -/
def Img.lastChannel (i : Img) (x y : Nat) : Nat := (i.px x y).getLastD 0

/-- `Image.new('RGB', size, (255, 255, 255))`: opaque white background. -/
def Img.whiteRGB (w h : Nat) : Img :=
  { mode := .RGB
    width := w
    height := h
    px := fun _ _ => [255, 255, 255]
    palette := fun _ => [0, 0, 0, 0] }

/-- `background.paste(image, mask=mask)`: the pasted image is converted
to the background's mode (RGB here) and alpha-blended channel-wise under
the mask. -/
def Img.pasteMask (bg src : Img) (mask : Nat → Nat → Nat) : Img :=
  { bg with
    px := fun x y =>
      List.zipWith (blend (mask x y)) (bg.px x y) (src.convertRGB.px x y) }

/-- `background.paste(image)` without a mask: source pixels (converted
to the background's mode) replace the background wholesale. -/
def Img.pasteNoMask (bg src : Img) : Img :=
  { bg with px := fun x y => src.convertRGB.px x y }

/-- `convert_image_to_rgb` (file_service.py lines 15-45), translated
branch by branch, including the unreachable no-mask fallback branch. -/
def convert_image_to_rgb (image : Img) : Img :=
  if image.mode = .RGBA ∨ image.mode = .LA ∨ image.mode = .P then
    let background := Img.whiteRGB image.width image.height
    let image := if image.mode = .P then image.paletteToRGBA else image
    if image.mode = .RGBA ∨ image.mode = .LA then
      background.pasteMask image image.lastChannel
    else
      background.pasteNoMask image
  else if image.mode ≠ .RGB then
    image.convertRGB
  else image

/-- Codec resize primitive (opaque collaborator): new dimensions with a
coordinate-rescaled sampling of the source.  The claims about resizing
concern dimensions only. -/
def Img.resizeTo (i : Img) (w h : Nat) : Img :=
  { i with
    width := w
    height := h
    px := fun x y => i.px (x * i.width / w) (y * i.height / h) }

/-- `resize_image_for_thumbnail` (file_service.py lines 48-64).
`new_height = int(image.height * ratio)` with `ratio = max_width / width`
computes `height * max_width / width` in floating point and truncates
toward zero; it is modelled as exact natural (floor) division. -/
def resize_image_for_thumbnail (image : Img) (max_width : Nat := 1920) : Img :=
  if image.width > max_width then
    image.resizeTo max_width (image.height * max_width / image.width)
  else image

/-- Modelled from the spec (§4.3 step 1): "recomputing height as
`round(height * maxWidth / width)`", the rational scaled height rounded
to the nearest integer (halves up). -/
def specRoundedHeight (height maxWidth width : Nat) : Nat :=
  (2 * (height * maxWidth) + width) / (2 * width)

/-- Modelled from the spec (§4.3 step 2): composite an alpha-or-palette
image onto an opaque white background, using the alpha (or last) channel
of its alpha-bearing expansion as the blend mask; palette images are
expanded first. -/
def specWhiteComposite (img : Img) : Img :=
  let rgba := if img.mode = .P then img.paletteToRGBA else img
  { mode := .RGB
    width := img.width
    height := img.height
    px := fun x y =>
      List.zipWith (blend (rgba.lastChannel x y)) [255, 255, 255]
        (rgba.convertRGB.px x y)
    palette := fun _ => [0, 0, 0, 0] }

/-- Split a character list on `' '` (for whitespace-run collapsing). -/
def splitOnSpaceChar : List Char → List Seg
  | [] => [[]]
  | c :: rest =>
    if c = ' ' then [] :: splitOnSpaceChar rest
    else
      match splitOnSpaceChar rest with
      | [] => [[c]]
      | s :: ss => (c :: s) :: ss

/-- Join segments with an arbitrary separator character. -/
def joinWith (sep : Char) : List Seg → List Char
  | [] => []
  | [s] => s
  | s :: rest => s ++ sep :: joinWith sep rest

/-- Characters kept by `werkzeug.utils.secure_filename`: ASCII
alphanumerics and `'_'`, `'.'`, `'-'`. -/
def keepChar (c : Char) : Bool := c.isAlphanum || c = '_' || c = '.' || c = '-'

/-- Strip leading and trailing `'.'` / `'_'` characters. -/
def stripDU (l : List Char) : List Char :=
  ((l.dropWhile fun c => decide (c = '.' ∨ c = '_')).reverse.dropWhile
    fun c => decide (c = '.' ∨ c = '_')).reverse

/-- Model of `werkzeug.utils.secure_filename` (external collaborator):
path separators become spaces, whitespace runs collapse to single
underscores, only ASCII alphanumerics and `'_'`, `'.'`, `'-'` survive,
and leading/trailing `'.'`/`'_'` are stripped. -/
def secure_filename (l : List Char) : List Char :=
  let spaced := l.map (fun c => if c = '/' ∨ c = '\\' then ' ' else c)
  let words := (splitOnSpaceChar spaced).filter (fun w => decide (w ≠ []))
  let joined := joinWith '_' words
  stripDU (joined.filter keepChar)

/-- `FileService._generate_material_filename` (lines 114-120): sanitise
the original name (falling back to `"material"`), split it into stem and
lowercased extension (defaulting to `".png"`), and interpose the
millisecond timestamp `ts`. -/
def generate_material_filename (ts : Nat) (original_filename : List Char) : List Char :=
  let safe_name :=
    if secure_filename original_filename = [] then "material".data
    else secure_filename original_filename
  let base_name := pyStem safe_name
  let ext0 := toLowerL (pySuffix safe_name)
  let ext := if ext0 = [] then ".png".data else ext0
  base_name ++ '_' :: natChars ts ++ ext

/-- Contents of a file: opaque uploaded bytes, or an image encoded in a
given format at a given quality (the codec collaborator's output). -/
inductive FileData where
  | bytes : Nat → FileData
  | image : Img → List Char → Option Nat → FileData

/-- Filesystem state under the storage root: file paths with their data,
and the set of existing directories.  The root itself always exists
(created in `FileService.__init__`) and is left implicit. -/
structure FS where
  files : List (FPath × FileData)
  dirs : List FPath

/-- All nonempty prefixes of a path: the location and its ancestors
below the root. -/
def ancestorsOf (p : FPath) : List FPath := p.inits.filter (fun q => decide (q ≠ []))

/-- Contents of the file at `p`, if a file is there. -/
def FS.read (fs : FS) (p : FPath) : Option FileData :=
  (fs.files.find? (fun e => decide (e.1 = p))).map Prod.snd

/-- `Path.is_file()`. -/
def FS.isFile (fs : FS) (p : FPath) : Bool := (fs.read p).isSome

/-- `Path.is_dir()`. -/
def FS.isDir (fs : FS) (p : FPath) : Bool := decide (p ∈ fs.dirs)

/-- `Path.exists()`: a file or a directory is at `p`. -/
def FS.existsPath (fs : FS) (p : FPath) : Bool := fs.isFile p || fs.isDir p

/-- `path.mkdir(exist_ok=True, parents=True)`. -/
def FS.mkdirp (fs : FS) (p : FPath) : FS :=
  { fs with
    dirs := (ancestorsOf p).foldl (fun ds q => if q ∈ ds then ds else q :: ds) fs.dirs }

/-- Write (create or overwrite) the file at `p`. -/
def FS.writeFile (fs : FS) (p : FPath) (d : FileData) : FS :=
  { fs with files := (p, d) :: fs.files.filter (fun e => decide (e.1 ≠ p)) }

/-- `Path.unlink()`. -/
def FS.removeFile (fs : FS) (p : FPath) : FS :=
  { fs with files := fs.files.filter (fun e => decide (e.1 ≠ p)) }

/-- `shutil.move` of a directory source: the whole subtree at `src` is
renamed to `dst`. -/
def FS.renameTree (fs : FS) (src dst : FPath) : FS :=
  { files := fs.files.map
      (fun e => if src.isPrefixOf e.1 then (dst ++ e.1.drop src.length, e.2) else e)
    dirs := fs.dirs.map
      (fun q => if src.isPrefixOf q then dst ++ q.drop src.length else q) }

/-- Well-formed state: every ancestor of a file path is an existing
directory, and no file path is simultaneously a directory. -/
def FS.WF (fs : FS) : Prop :=
  (∀ p ∈ fs.files.map Prod.fst, ∀ q ∈ ancestorsOf p.dropLast, q ∈ fs.dirs) ∧
  ∀ p ∈ fs.files.map Prod.fst, p ∉ fs.dirs

/-- `FileService._get_project_dir` (lines 75-79): `upload_folder /
project_id`, created if absent. -/
def get_project_dir (fs : FS) (project_id : List Char) : FPath × FS :=
  let d := splitSegs project_id
  (d, fs.mkdirp d)

/-- `FileService._get_template_dir` (lines 81-85). -/
def get_template_dir (fs : FS) (project_id : List Char) : FPath × FS :=
  let (pd, fs₁) := get_project_dir fs project_id
  let d := pd ++ ["template".data]
  (d, fs₁.mkdirp d)

/-- `FileService._get_pages_dir` (lines 87-91). -/
def get_pages_dir (fs : FS) (project_id : List Char) : FPath × FS :=
  let (pd, fs₁) := get_project_dir fs project_id
  let d := pd ++ ["pages".data]
  (d, fs₁.mkdirp d)

/-- `FileService._get_materials_dir` (lines 99-103). -/
def get_materials_dir (fs : FS) (project_id : List Char) : FPath × FS :=
  let (pd, fs₁) := get_project_dir fs project_id
  let d := pd ++ ["materials".data]
  (d, fs₁.mkdirp d)

/-- `FileService._get_global_materials_dir` (lines 105-109). -/
def get_global_materials_dir (fs : FS) : FPath × FS :=
  (["materials".data], fs.mkdirp ["materials".data])

/-- `FileService._get_materials_target_dir` (lines 111-112). -/
def get_materials_target_dir (fs : FS) (target_project_id : Option (List Char)) :
    FPath × FS :=
  match target_project_id with
  | none => get_global_materials_dir fs
  | some pid => get_materials_dir fs pid

/-- `FileService.save_generated_image` (lines 227-264): write the image
under `pages/` with a version-numbered (or, for `version_number = none`,
timestamped) filename and return the root-relative path.  `ts` models
the wall clock used by the timestamp branch. -/
def save_generated_image (fs : FS) (img : Img) (project_id page_id : List Char)
    (image_format : List Char) (version_number : Option Nat) (ts : Nat) :
    List Char × FS :=
  let (pages_dir, fs₁) := get_pages_dir fs project_id
  let ext := toLowerL image_format
  let filename :=
    match version_number with
    | some v => page_id ++ "_v".data ++ natChars v ++ '.' :: ext
    | none => page_id ++ '_' :: natChars ts ++ '.' :: ext
  let filepath := pages_dir ++ splitSegs filename
  (joinSegs filepath, fs₁.writeFile filepath (.image img ext none))

/-- `FileService.get_cached_image_path` (lines 266-282): the pure
f-string `"{project_id}/pages/{page_id}_v{version_number}_thumb.jpg"`. -/
def get_cached_image_path (project_id page_id : List Char) (version_number : Nat) :
    List Char :=
  project_id ++ "/pages/".data ++ page_id ++ "_v".data ++ natChars version_number ++
    "_thumb.jpg".data

/-- The one failure the codec oracle can signal for an encode. -/
inductive SaveErr where
  | encodeFailed
  deriving DecidableEq, Repr

/-- `FileService.save_cached_image` (lines 284-318).  The body has no
exception handler: the final JPEG encode (`image.save`) is the fallible
step, modelled by the codec outcome flag `encodeOk`; on codec failure
the exception propagates to the caller (`Except.error`). -/
def save_cached_image (fs : FS) (image : Img) (project_id page_id : List Char)
    (version_number quality max_width : Nat) (encodeOk : Bool) :
    Except SaveErr (List Char) × FS :=
  let (pages_dir, fs₁) := get_pages_dir fs project_id
  let relative_path := get_cached_image_path project_id page_id version_number
  let filename := (splitSegs relative_path).getLastD []
  let filepath := pages_dir ++ [filename]
  let image := resize_image_for_thumbnail image max_width
  let image := convert_image_to_rgb image
  if encodeOk then
    (.ok relative_path, fs₁.writeFile filepath (.image image "jpeg".data (some quality)))
  else (.error .encodeFailed, fs₁)

/-- `FileService.save_material_image` (lines 320-350): write a
standalone material image with a timestamped filename into the project
(or, for `project_id = none`, global) materials scope. -/
def save_material_image (fs : FS) (img : Img) (project_id : Option (List Char))
    (image_format : List Char) (ts : Nat) : List Char × FS :=
  let (materials_dir, fs₁) := get_materials_target_dir fs project_id
  let ext := toLowerL image_format
  let filename := "material_".data ++ natChars ts ++ '.' :: ext
  let filepath := materials_dir ++ splitSegs filename
  (joinSegs filepath, fs₁.writeFile filepath (.image img ext none))

/-- Errors `copy_material_file` / `move_material_file` can raise. -/
inductive RelocErr where
  | notFound
  | isADirectory
  deriving DecidableEq, Repr

deriving instance DecidableEq for Except

/-- `FileService.copy_material_file` (lines 352-364).  `ts` models the
millisecond timestamp used for the fresh filename.  `shutil.copy2` on a
directory source raises `IsADirectoryError` (not `FileNotFoundError`);
on a file source it copies the bytes to the target path. -/
def copy_material_file (fs : FS) (relative_path : List Char)
    (target_project_id : Option (List Char)) (ts : Nat) :
    Except RelocErr (List Char × List Char) × FS :=
  let source_path := splitRel relative_path
  if fs.existsPath source_path = false then
    (.error .notFound, fs)
  else
    let (target_dir, fs₁) := get_materials_target_dir fs target_project_id
    let new_filename := generate_material_filename ts (source_path.getLastD [])
    let target_path := target_dir ++ [new_filename]
    match fs₁.read source_path with
    | some d => (.ok (joinSegs target_path, new_filename), fs₁.writeFile target_path d)
    | none => (.error .isADirectory, fs₁)

/-- `FileService.move_material_file` (lines 366-381): as `copy`, plus
the same-directory no-op short-circuit, and a physical relocation
(`shutil.move`, which also renames a directory source wholesale)
instead of a copy. -/
def move_material_file (fs : FS) (relative_path : List Char)
    (target_project_id : Option (List Char)) (ts : Nat) :
    Except RelocErr (List Char × List Char) × FS :=
  let source_path := splitRel relative_path
  if fs.existsPath source_path = false then
    (.error .notFound, fs)
  else
    let (target_dir, fs₁) := get_materials_target_dir fs target_project_id
    if source_path.dropLast = target_dir then
      (.ok (relative_path, source_path.getLastD []), fs₁)
    else
      let new_filename := generate_material_filename ts (source_path.getLastD [])
      let target_path := target_dir ++ [new_filename]
      match fs₁.read source_path with
      | some d =>
        (.ok (joinSegs target_path, new_filename),
         (fs₁.removeFile source_path).writeFile target_path d)
      | none =>
        (.ok (joinSegs target_path, new_filename), fs₁.renameTree source_path target_path)

/-- `FileService.delete_page_image_version` (lines 383-406): delete the
file at the given relative path if present, then delete the co-located
`{stem}_thumb.jpg` cache file; report whether the primary was removed. -/
def delete_page_image_version (fs : FS) (image_path : List Char) : Bool × FS :=
  let filepath := splitRel image_path
  let (deleted, fs₁) :=
    if fs.existsPath filepath && fs.isFile filepath then (true, fs.removeFile filepath)
    else (false, fs)
  let cache_filepath :=
    filepath.dropLast ++ [pyStem (filepath.getLastD []) ++ "_thumb.jpg".data]
  let fs₂ :=
    if fs₁.existsPath cache_filepath && fs₁.isFile cache_filepath then
      fs₁.removeFile cache_filepath
    else fs₁
  (deleted, fs₂)

/-- `FileService.file_exists` (lines 495-498). -/
def file_exists (fs : FS) (relative_path : List Char) : Bool :=
  let filepath := splitRel relative_path
  fs.existsPath filepath && fs.isFile filepath

/-- Is `p` an immediate child path of directory `d` (the `iterdir`
view)? -/
def isChildOf (d p : FPath) : Prop := p ≠ [] ∧ p.dropLast = d

instance : ∀ d p, Decidable (isChildOf d p) := fun d p => by
  unfold isChildOf; infer_instance

/-- `FileService.delete_template` (lines 437-454): ensure the template
directory exists, then unlink every file directly inside it. -/
def delete_template (fs : FS) (project_id : List Char) : Bool × FS :=
  let (template_dir, fs₁) := get_template_dir fs project_id
  (true,
   { fs₁ with
     files := fs₁.files.filter (fun e => decide (¬ isChildOf template_dir e.1)) })

/-- `FileService.delete_page_image` (lines 456-475): ensure the pages
directory exists, then unlink every file in it matching the glob
`"{page_id}_*"`.  For a glob-literal page id (no `*?[` metacharacters,
which `ValidId` guarantees) the pattern matches exactly the immediate
children whose name starts with `page_id ++ "_"`. -/
def delete_page_image (fs : FS) (project_id page_id : List Char) : Bool × FS :=
  let (pages_dir, fs₁) := get_pages_dir fs project_id
  (true,
   { fs₁ with
     files := fs₁.files.filter
       (fun e => decide (¬ (isChildOf pages_dir e.1 ∧
         (page_id ++ ['_']).isPrefixOf (e.1.getLastD []) = true))) })

/-- `FileService._get_user_templates_dir` (lines 535-539). -/
def get_user_templates_dir (fs : FS) : FPath × FS :=
  (["user-templates".data], fs.mkdirp ["user-templates".data])

/-- `FileService.save_user_template_thumbnail` (lines 586-629): the
whole body sits in a `try`/`except Exception` that turns any failure
into `None`.  Fallible steps are the decode of the original
(`Image.open` and lazy load, modelled by `decodeOk` together with the
requirement that the source holds image data) and the WEBP encode
(`image.save`, modelled by `encodeOk`); side effects performed before a
swallowed failure persist. -/
def save_user_template_thumbnail (fs : FS) (template_id original_path : List Char)
    (quality max_width : Nat) (decodeOk encodeOk : Bool) :
    Option (List Char) × FS :=
  let original_full_path := splitRel original_path
  if fs.existsPath original_full_path = false then (none, fs)
  else
    match fs.read original_full_path, decodeOk with
    | some (.image img _ _), true =>
      let image := resize_image_for_thumbnail img max_width
      let image := convert_image_to_rgb image
      let (templates_dir, fs₁) := get_user_templates_dir fs
      let template_dir := templates_dir ++ splitSegs template_id
      let fs₂ := fs₁.mkdirp template_dir
      let thumb_filepath := template_dir ++ ["template-thumb.webp".data]
      if encodeOk then
        (some (joinSegs thumb_filepath),
         fs₂.writeFile thumb_filepath (.image image "webp".data (some quality)))
      else (none, fs₂)
    | _, _ => (none, fs)

example : pyStem "p1_v1.png".data = "p1_v1".data := by decide
example : pyStem "p1_v1.tar.gz".data = "p1_v1.tar".data := by decide
example : pyStem "p1_v1.".data = "p1_v1.".data := by decide
example : pySuffix ".bashrc".data = [] := by decide
example : pySuffix "a.tar.gz".data = ".gz".data := by decide
example : (resize_image_for_thumbnail (Img.whiteRGB 3000 1001) 1920).height = 640 := by decide
example : specRoundedHeight 1001 1920 3000 = 641 := by decide

section PathLemmas

theorem splitOnSlash_eq_single (s : List Char) (h : '/' ∉ s) : splitOnSlash s = [s] := by
  induction s with
  | nil => rfl
  | cons c rest ih =>
    have hc : ¬ c = '/' := fun hc => h (hc ▸ List.mem_cons_self c rest)
    have hr : '/' ∉ rest := fun hm => h (List.mem_cons_of_mem c hm)
    simp [splitOnSlash, hc, ih hr]

theorem splitOnSlash_append (a b : List Char) (ha : '/' ∉ a) :
    splitOnSlash (a ++ '/' :: b) = a :: splitOnSlash b := by
  induction a with
  | nil => simp [splitOnSlash]
  | cons c rest ih =>
    have hc : ¬ c = '/' := fun hc => ha (hc ▸ List.mem_cons_self c rest)
    have hr : '/' ∉ rest := fun hm => ha (List.mem_cons_of_mem c hm)
    simpa [splitOnSlash, hc] using congrArg (fun l => match l with
      | [] => [[c]]
      | s :: ss => (c :: s) :: ss) (ih hr)

theorem splitSegs_single (s : Seg) (h1 : '/' ∉ s) (h2 : s ≠ []) (h3 : s ≠ ['.']) :
    splitSegs s = [s] := by
  simp [splitSegs, splitOnSlash_eq_single s h1, List.filter, h2, h3]

theorem splitSegs_sep (s : Seg) (r : List Char) (h1 : '/' ∉ s) (h2 : s ≠ [])
    (h3 : s ≠ ['.']) : splitSegs (s ++ '/' :: r) = s :: splitSegs r := by
  simp [splitSegs, splitOnSlash_append s r h1, List.filter, h2, h3]

theorem deBack_eq_self (l : List Char) (h : '\\' ∉ l) : deBack l = l := by
  induction l with
  | nil => rfl
  | cons c rest ih =>
    have hc : ¬ c = '\\' := fun hc => h (hc ▸ List.mem_cons_self c rest)
    have hr : '\\' ∉ rest := fun hm => h (List.mem_cons_of_mem c hm)
    simp [deBack, hc]
    simpa [deBack] using ih hr

theorem joinSegs_cons (s : Seg) (r : FPath) (hr : r ≠ []) :
    joinSegs (s :: r) = s ++ '/' :: joinSegs r := by
  cases r with
  | nil => exact absurd rfl hr
  | cons t ts => rfl

theorem mem_joinSegs (c : Char) (segs : FPath) (hc : c ∈ joinSegs segs) :
    c = '/' ∨ ∃ s ∈ segs, c ∈ s := by
  induction segs with
  | nil => simp [joinSegs] at hc
  | cons s rest ih =>
    cases rest with
    | nil =>
      right
      exact ⟨s, List.mem_cons_self s [], by simpa [joinSegs] using hc⟩
    | cons t ts =>
      rw [joinSegs_cons s (t :: ts) (by simp)] at hc
      rcases List.mem_append.mp hc with h | h
      · exact Or.inr ⟨s, List.mem_cons_self s _, h⟩
      · rcases List.mem_cons.mp h with h | h
        · exact Or.inl h
        · rcases ih h with h | ⟨u, hu, hcu⟩
          · exact Or.inl h
          · exact Or.inr ⟨u, List.mem_cons_of_mem s hu, hcu⟩

theorem splitSegs_joinSegs (segs : FPath) (h : ∀ s ∈ segs, PlainSeg s) :
    splitSegs (joinSegs segs) = segs := by
  induction segs with
  | nil => rfl
  | cons s rest ih =>
    have hs := h s (List.mem_cons_self s rest)
    cases rest with
    | nil => exact splitSegs_single s hs.2.1 hs.1 hs.2.2.2.1
    | cons t ts =>
      rw [joinSegs_cons s (t :: ts) (by simp),
        splitSegs_sep s _ hs.2.1 hs.1 hs.2.2.2.1,
        ih (fun u hu => h u (List.mem_cons_of_mem s hu))]

theorem splitRel_joinSegs (segs : FPath) (h : ∀ s ∈ segs, PlainSeg s) :
    splitRel (joinSegs segs) = segs := by
  have hnb : '\\' ∉ joinSegs segs := by
    intro hm
    rcases mem_joinSegs _ _ hm with h1 | ⟨s, hs, hcs⟩
    · exact absurd h1 (by decide)
    · exact (h s hs).2.2.1 hcs
  rw [splitRel, deBack_eq_self _ hnb, splitSegs_joinSegs segs h]

theorem foldl_resolveStep (segs : FPath) (h : ∀ s ∈ segs, s ≠ ['.', '.']) :
    ∀ acc, segs.foldl resolveStep (some acc) = some (acc ++ segs) := by
  induction segs with
  | nil => intro acc; simp
  | cons s rest ih =>
    intro acc
    have hs := h s (List.mem_cons_self s rest)
    have : resolveStep (some acc) s = some (acc ++ [s]) := by
      simp [resolveStep, hs]
    rw [List.foldl_cons, this, ih (fun u hu => h u (List.mem_cons_of_mem s hu))]
    simp

theorem resolveSegs_plain (segs : FPath) (h : ∀ s ∈ segs, s ≠ ['.', '.']) :
    resolveSegs segs = some segs := by
  simpa using foldl_resolveStep segs h []

end PathLemmas

section DigitLemmas

theorem digitChar_isDigit (n : Nat) : (digitChar n).isDigit = true := by
  rcases n with _|_|_|_|_|_|_|_|_|n <;> rfl

theorem isDigit_ne (c : Char) (h : c.isDigit = true) :
    c ≠ '/' ∧ c ≠ '\\' ∧ c ≠ '.' := by
  refine ⟨?_, ?_, ?_⟩ <;> rintro rfl <;> exact absurd h (by decide)

theorem natCharsCore_subset (fuel : Nat) :
    ∀ (n : Nat) (acc : List Char), ∀ c ∈ natCharsCore fuel n acc,
      (∃ m, c = digitChar m) ∨ c ∈ acc := by
  induction fuel with
  | zero => intro n acc c hc; exact Or.inr hc
  | succ f ih =>
    intro n acc c hc
    by_cases hn : n < 10
    · simp only [natCharsCore, if_pos hn] at hc
      rcases List.mem_cons.mp hc with h | h
      · exact Or.inl ⟨n, h⟩
      · exact Or.inr h
    · simp only [natCharsCore, if_neg hn] at hc
      rcases ih (n / 10) (digitChar (n % 10) :: acc) c hc with h | h
      · exact Or.inl h
      · rcases List.mem_cons.mp h with h | h
        · exact Or.inl ⟨n % 10, h⟩
        · exact Or.inr h

theorem natChars_digits (n : Nat) : ∀ c ∈ natChars n, c.isDigit = true := by
  intro c hc
  rcases natCharsCore_subset (n + 1) n [] c hc with ⟨m, rfl⟩ | h
  · exact digitChar_isDigit m
  · simp at h

theorem natCharsCore_suffix (fuel : Nat) :
    ∀ (n : Nat) (acc : List Char), ∃ l, natCharsCore fuel n acc = l ++ acc := by
  induction fuel with
  | zero => intro n acc; exact ⟨[], rfl⟩
  | succ f ih =>
    intro n acc
    by_cases hn : n < 10
    · exact ⟨[digitChar n], by simp [natCharsCore, if_pos hn]⟩
    · obtain ⟨l, hl⟩ := ih (n / 10) (digitChar (n % 10) :: acc)
      exact ⟨l ++ [digitChar (n % 10)], by simp [natCharsCore, if_neg hn, hl]⟩

theorem natChars_ne_nil (n : Nat) : natChars n ≠ [] := by
  unfold natChars
  by_cases hn : n < 10
  · simp [natCharsCore, if_pos hn]
  · obtain ⟨l, hl⟩ := natCharsCore_suffix n (n / 10) [digitChar (n % 10)]
    simp [natCharsCore, if_neg hn, hl]

end DigitLemmas

section StemLemmas

theorem rfindDot_eq_none (l : List Char) (h : '.' ∉ l) : rfindDot l = none := by
  induction l with
  | nil => rfl
  | cons c rest ih =>
    have hc : ¬ c = '.' := fun hc => h (hc ▸ List.mem_cons_self c rest)
    have hr : '.' ∉ rest := fun hm => h (List.mem_cons_of_mem c hm)
    simp [rfindDot, ih hr, hc]

theorem rfindDot_append (a b : List Char) (hb : '.' ∉ b) :
    rfindDot (a ++ '.' :: b) = some a.length := by
  induction a with
  | nil => simp [rfindDot, rfindDot_eq_none b hb]
  | cons c rest ih => simp [rfindDot, ih]

theorem pyStem_append_ext (a ext : List Char) (ha : a ≠ []) (he : ext ≠ [])
    (hde : '.' ∉ ext) : pyStem (a ++ '.' :: ext) = a := by
  have h1 : 0 < a.length := List.length_pos.mpr ha
  have h2 : a.length + 1 < (a ++ '.' :: ext).length := by
    have : 0 < ext.length := List.length_pos.mpr he
    simp only [List.length_append, List.length_cons]
    omega
  simp only [pyStem, rfindDot_append a ext hde]
  rw [if_pos (show 0 < a.length ∧ a.length + 1 < (a ++ '.' :: ext).length from ⟨h1, h2⟩)]
  exact List.take_left a ('.' :: ext)

end StemLemmas

section FSLemmas

theorem find?_filter_true (files : List (FPath × FileData)) (g : FPath × FileData → Bool)
    (p : FPath) (htrue : ∀ d, g (p, d) = true) :
    (files.filter g).find? (fun e => decide (e.1 = p)) =
      files.find? (fun e => decide (e.1 = p)) := by
  induction files with
  | nil => rfl
  | cons e es ih =>
    obtain ⟨q, d⟩ := e
    by_cases hq : q = p
    · subst hq
      simp [List.filter_cons, htrue d, List.find?]
    · cases hg : g (q, d) <;> simp [List.filter_cons, hg, List.find?, hq, ih]

theorem find?_filter_false (files : List (FPath × FileData)) (g : FPath × FileData → Bool)
    (p : FPath) (hfalse : ∀ d, g (p, d) = false) :
    (files.filter g).find? (fun e => decide (e.1 = p)) = none := by
  induction files with
  | nil => rfl
  | cons e es ih =>
    obtain ⟨q, d⟩ := e
    by_cases hq : q = p
    · subst hq
      simp [List.filter_cons, hfalse d, ih]
    · cases hg : g (q, d) <;> simp [List.filter_cons, hg, List.find?, hq, ih]

theorem read_writeFile_self (fs : FS) (p : FPath) (d : FileData) :
    (fs.writeFile p d).read p = some d := by
  simp [FS.writeFile, FS.read, List.find?]

theorem read_writeFile_ne (fs : FS) (p : FPath) (d : FileData) (q : FPath) (h : q ≠ p) :
    (fs.writeFile p d).read q = fs.read q := by
  simp only [FS.writeFile, FS.read]
  rw [List.find?_cons_of_neg _ (by simpa using fun heq => h heq.symm),
    find?_filter_true _ _ _ (fun d2 => by simp [h])]

theorem read_removeFile_self (fs : FS) (p : FPath) : (fs.removeFile p).read p = none := by
  simp only [FS.removeFile, FS.read]
  rw [find?_filter_false _ _ _ (fun d => by simp)]
  rfl

theorem read_removeFile_ne (fs : FS) (p q : FPath) (h : q ≠ p) :
    (fs.removeFile p).read q = fs.read q := by
  simp only [FS.removeFile, FS.read]
  rw [find?_filter_true _ _ _ (fun d => by simp [h])]

theorem existsPath_and_isFile (fs : FS) (p : FPath) :
    (fs.existsPath p && fs.isFile p) = fs.isFile p := by
  cases hf : fs.isFile p <;> simp [FS.existsPath, hf]

theorem read_mkdirp (fs : FS) (p q : FPath) : (fs.mkdirp p).read q = fs.read q := rfl

theorem isFile_mkdirp (fs : FS) (p q : FPath) : (fs.mkdirp p).isFile q = fs.isFile q := rfl

theorem mem_dirs_foldl (l : List FPath) (ds : List FPath) (q : FPath) (h : q ∈ ds) :
    q ∈ l.foldl (fun ds r => if r ∈ ds then ds else r :: ds) ds := by
  induction l generalizing ds with
  | nil => exact h
  | cons a as ih =>
    rw [List.foldl_cons]
    apply ih
    split
    · exact h
    · exact List.mem_cons_of_mem a h

theorem mem_dirs_foldl_self (l : List FPath) (ds : List FPath) (q : FPath) (h : q ∈ l) :
    q ∈ l.foldl (fun ds r => if r ∈ ds then ds else r :: ds) ds := by
  induction l generalizing ds with
  | nil => simp at h
  | cons a as ih =>
    rw [List.foldl_cons]
    rcases List.mem_cons.mp h with rfl | h
    · apply mem_dirs_foldl
      split
      · assumption
      · exact List.mem_cons_self q _
    · exact ih _ h

theorem mem_dirs_mkdirp_superset (fs : FS) (p q : FPath) (h : q ∈ fs.dirs) :
    q ∈ (fs.mkdirp p).dirs :=
  mem_dirs_foldl _ _ _ h

theorem mem_dirs_mkdirp_self (fs : FS) (p q : FPath) (h : q ∈ ancestorsOf p) :
    q ∈ (fs.mkdirp p).dirs :=
  mem_dirs_foldl_self _ _ _ h

theorem foldl_insert_noop (l : List FPath) : ∀ ds : List FPath, (∀ q ∈ l, q ∈ ds) →
    l.foldl (fun ds r => if r ∈ ds then ds else r :: ds) ds = ds := by
  induction l with
  | nil => intro ds _; rfl
  | cons a as ih =>
    intro ds h
    rw [List.foldl_cons, if_pos (h a (List.mem_cons_self a as))]
    exact ih ds (fun q hq => h q (List.mem_cons_of_mem a hq))

theorem mkdirp_noop (fs : FS) (p : FPath) (h : ∀ q ∈ ancestorsOf p, q ∈ fs.dirs) :
    fs.mkdirp p = fs := by
  unfold FS.mkdirp
  rw [foldl_insert_noop _ _ h]

theorem isFile_mem_keys (fs : FS) (p : FPath) (h : fs.isFile p = true) :
    p ∈ fs.files.map Prod.fst := by
  unfold FS.isFile FS.read at h
  cases hf : fs.files.find? (fun e => decide (e.1 = p)) with
  | none => rw [hf] at h; simp at h
  | some e =>
    have he := List.find?_some hf
    have hmem := List.mem_of_find?_eq_some hf
    exact List.mem_map.mpr ⟨e, hmem, of_decide_eq_true he⟩

theorem underscore_not_mem_validId (s : Seg) (h : ValidId s) : '_' ∉ s := by
  intro hm
  rcases h.2 '_' hm with h1 | h1
  · exact absurd h1 (by decide)
  · exact absurd h1 (by decide)

theorem validId_prefix_eq (a b : Seg) (_ha : ValidId a) (hb : ValidId b)
    (hp : (a ++ ['_']) <+: (b ++ ['_'])) : a = b := by
  have hlen : a.length + 1 ≤ b.length + 1 := by simpa using hp.length_le
  rcases Nat.lt_or_ge a.length b.length with hlt | hge
  · exfalso
    obtain ⟨t, ht⟩ := hp
    have h3 : List.drop a.length (a ++ ['_'] ++ t) = '_' :: t := by
      rw [List.append_assoc, List.drop_left]
      rfl
    have h4 : List.drop a.length (b ++ ['_']) = b.drop a.length ++ ['_'] := by
      rw [List.drop_append_eq_append_drop, Nat.sub_eq_zero_of_le hlt.le, List.drop_zero]
    have heq : '_' :: t = b.drop a.length ++ ['_'] :=
      h3.symm.trans ((congrArg (List.drop a.length) ht).trans h4)
    cases hbd : b.drop a.length with
    | nil =>
      have := congrArg List.length hbd
      simp at this
      omega
    | cons c rest =>
      rw [hbd] at heq
      simp only [List.cons_append, List.cons.injEq] at heq
      have hc : c ∈ b :=
        List.drop_subset a.length b (hbd ▸ List.mem_cons_self c rest)
      exact underscore_not_mem_validId b hb (heq.1 ▸ hc)
  · have heq : a.length = b.length := by omega
    have := hp.eq_of_length (by simp [heq])
    exact List.append_cancel_right this

theorem isPrefixOf_false_of_validId (pg q : Seg) (hpg : ValidId pg) (hq : ValidId q)
    (hne : q ≠ pg) (name : Seg) (h : (q ++ ['_']).isPrefixOf name = true) :
    (pg ++ ['_']).isPrefixOf name = false := by
  cases h3 : (pg ++ ['_']).isPrefixOf name
  · rfl
  · exfalso
    have p1 := List.isPrefixOf_iff_prefix.mp h
    have p2 := List.isPrefixOf_iff_prefix.mp h3
    rcases List.prefix_or_prefix_of_prefix p1 p2 with hp | hp
    · exact hne (validId_prefix_eq q pg hq hpg hp)
    · exact hne (validId_prefix_eq pg q hpg hq hp).symm

theorem validId_plainSeg (s : Seg) (h : ValidId s) : PlainSeg s := by
  refine ⟨h.1, ?_, ?_, ?_, ?_⟩
  · intro hm; rcases h.2 _ hm with h1 | h1 <;> exact absurd h1 (by decide)
  · intro hm; rcases h.2 _ hm with h1 | h1 <;> exact absurd h1 (by decide)
  · rintro rfl
    rcases h.2 '.' (List.mem_cons_self _ _) with h1 | h1 <;> exact absurd h1 (by decide)
  · rintro rfl
    rcases h.2 '.' (List.mem_cons_self _ _) with h1 | h1 <;> exact absurd h1 (by decide)

end FSLemmas

section SegmentValidity

/-- A segment longer than two characters without separators is plain. -/
theorem plainSeg_of (s : Seg) (h1 : '/' ∉ s) (h2 : '\\' ∉ s) (h3 : 2 < s.length) :
    PlainSeg s := by
  refine ⟨?_, h1, h2, ?_, ?_⟩ <;> rintro rfl <;> simp at h3

/-- No separator-like character `c` occurs in the version-numbered page
file name, provided it occurs neither in the page id nor the extension
and is not a digit or a name literal. -/
theorem char_not_mem_filename_v (page ext : Seg) (v : Nat) (c : Char)
    (hpg : c ∉ page) (hext : c ∉ ext) (hdig : c.isDigit = false)
    (hlit : c ∉ "_v.".data) : c ∉ page ++ "_v".data ++ natChars v ++ '.' :: ext := by
  intro hm
  rcases List.mem_append.mp hm with h | h
  · rcases List.mem_append.mp h with h | h
    · rcases List.mem_append.mp h with h | h
      · exact hpg h
      · rcases List.mem_cons.mp h with h | h
        · exact hlit (h ▸ List.mem_cons_self _ _)
        · simp at h
          exact hlit (by simp [h])
    · rw [natChars_digits v c h] at hdig
      exact absurd hdig (by decide)
  · rcases List.mem_cons.mp h with h | h
    · exact hlit (by simp [h])
    · exact hext h

/-- The version-numbered page file name is a plain segment. -/
theorem plain_filename_v (page ext : Seg) (v : Nat) (hg : PlainSeg page)
    (he1 : ext ≠ []) (he2 : '/' ∉ ext) (he3 : '\\' ∉ ext) :
    PlainSeg (page ++ "_v".data ++ natChars v ++ '.' :: ext) := by
  have hnat := List.length_pos.mpr (natChars_ne_nil v)
  have hpage := List.length_pos.mpr hg.1
  have hext := List.length_pos.mpr he1
  refine plainSeg_of _ ?_ ?_ ?_
  · exact char_not_mem_filename_v page ext v '/' hg.2.1 he2 (by decide) (by decide)
  · exact char_not_mem_filename_v page ext v '\\' hg.2.2.1 he3 (by decide) (by decide)
  · simp only [List.length_append, List.length_cons]
    omega

/-- No separator-like character occurs in the derived thumbnail name. -/
theorem char_not_mem_thumbname (page : Seg) (v : Nat) (c : Char)
    (hpg : c ∉ page) (hdig : c.isDigit = false)
    (hlit : c ∉ "_vthumb.jpg".data) :
    c ∉ page ++ "_v".data ++ natChars v ++ "_thumb.jpg".data := by
  intro hm
  rcases List.mem_append.mp hm with h | h
  · rcases List.mem_append.mp h with h | h
    · rcases List.mem_append.mp h with h | h
      · exact hpg h
      · simp at h
        rcases h with h | h <;> exact hlit (by simp [h])
    · rw [natChars_digits v c h] at hdig
      exact absurd hdig (by decide)
  · simp at h
    rcases h with h | h | h | h | h | h | h | h | h | h <;> exact hlit (by simp [h])

/-- The derived thumbnail file name is a plain segment. -/
theorem plain_thumbname (page : Seg) (v : Nat) (hg : PlainSeg page) :
    PlainSeg (page ++ "_v".data ++ natChars v ++ "_thumb.jpg".data) := by
  have hnat := List.length_pos.mpr (natChars_ne_nil v)
  have hpage := List.length_pos.mpr hg.1
  refine plainSeg_of _ ?_ ?_ ?_
  · exact char_not_mem_thumbname page v '/' hg.2.1 (by decide) (by decide)
  · exact char_not_mem_thumbname page v '\\' hg.2.2.1 (by decide) (by decide)
  · simp only [List.length_append, List.length_cons]
    omega

/-- The timestamped material file name is a plain segment. -/
theorem plain_material_name (ext : Seg) (ts : Nat)
    (he1 : ext ≠ []) (he2 : '/' ∉ ext) (he3 : '\\' ∉ ext) :
    PlainSeg ("material_".data ++ natChars ts ++ '.' :: ext) := by
  have hnat := List.length_pos.mpr (natChars_ne_nil ts)
  have hext := List.length_pos.mpr he1
  have key : ∀ c : Char, c ∉ ext → c.isDigit = false → c ∉ "material_.".data →
      c ∉ "material_".data ++ natChars ts ++ '.' :: ext := by
    intro c hce hdig hlit hm
    rcases List.mem_append.mp hm with h | h
    · rcases List.mem_append.mp h with h | h
      · exact hlit (List.mem_append.mpr (Or.inl h))
      · rw [natChars_digits ts c h] at hdig
        exact absurd hdig (by decide)
    · rcases List.mem_cons.mp h with h | h
      · exact hlit (by simp [h])
      · exact hce h
  refine plainSeg_of _ ?_ ?_ ?_
  · exact key '/' he2 (by decide) (by decide)
  · exact key '\\' he3 (by decide) (by decide)
  · simp only [List.length_append, List.length_cons]
    omega

/-- The timestamp-named page file name is a plain segment. -/
theorem plain_filename_ts (page ext : Seg) (ts : Nat) (hg : PlainSeg page)
    (he1 : ext ≠ []) (he2 : '/' ∉ ext) (he3 : '\\' ∉ ext) :
    PlainSeg (page ++ '_' :: natChars ts ++ '.' :: ext) := by
  have hnat := List.length_pos.mpr (natChars_ne_nil ts)
  have hpage := List.length_pos.mpr hg.1
  have hext := List.length_pos.mpr he1
  have key : ∀ c : Char, c ∉ page → c ∉ ext → c.isDigit = false → c ∉ "_.".data →
      c ∉ page ++ '_' :: natChars ts ++ '.' :: ext := by
    intro c hcp hce hdig hlit hm
    rcases List.mem_append.mp hm with h | h
    · rcases List.mem_append.mp h with h | h
      · exact hcp h
      · rcases List.mem_cons.mp h with h | h
        · exact hlit (by simp [h])
        · rw [natChars_digits ts c h] at hdig
          exact absurd hdig (by decide)
    · rcases List.mem_cons.mp h with h | h
      · exact hlit (by simp [h])
      · exact hce h
  refine plainSeg_of _ ?_ ?_ ?_
  · exact key '/' hg.2.1 he2 (by decide) (by decide)
  · exact key '\\' hg.2.2.1 he3 (by decide) (by decide)
  · simp only [List.length_append, List.length_cons]
    omega

end SegmentValidity

section SanityChecks

/-- Empty storage root. -/
def fsEmpty : FS := ⟨[], []⟩

example :
    (save_generated_image fsEmpty (Img.whiteRGB 1 1) "proj1".data "p1".data
      "PNG".data (some 1) 0).1 = "proj1/pages/p1_v1.png".data := by decide

example :
    (delete_page_image_version
      (save_generated_image fsEmpty (Img.whiteRGB 1 1) "proj1".data "p1".data
        "PNG".data (some 1) 0).2
      "proj1/pages/p1_v1.png".data).1 = true := by decide

example :
    file_exists
      (delete_page_image_version
        (save_generated_image fsEmpty (Img.whiteRGB 1 1) "proj1".data "p1".data
          "PNG".data (some 1) 0).2
        "proj1/pages/p1_v1.png".data).2
      "proj1/pages/p1_v1.png".data = false := by decide

example : get_cached_image_path "proj1".data "p1".data 1 =
    "proj1/pages/p1_v1_thumb.jpg".data := by decide

def fsMat : FS :=
  ⟨[(["materials".data, "a.png".data], .bytes 7)], [["materials".data]]⟩

example : (move_material_file fsMat "materials/a.png".data none 5).1 =
    .ok ("materials/a.png".data, "a.png".data) := by decide

example : (copy_material_file fsMat "materials/a.png".data none 5).1 =
    .ok ("materials/a_5.png".data, "a_5.png".data) := by decide

def fsDir : FS := ⟨[], [["materials".data], ["materials".data, "d".data]]⟩

example : (copy_material_file fsDir "materials/d".data none 0).1 =
    .error .isADirectory := by decide

end SanityChecks

example : splitSegs "a//b/./c".data = ["a".data, "b".data, "c".data] := by decide
example : splitRel "a\\b".data = ["a".data, "b".data] := by decide
example : insideRoot "../pages/x".data = false := by decide
example : insideRoot "p/pages/x_v1.png".data = true := by decide
example : natChars 120 = ['1', '2', '0'] := by decide
example : joinSegs ["a".data, "b".data] = "a/b".data := by decide


section ClaimSupport

/-- A path string assembled from plain segments stays inside the root. -/
theorem insideRoot_joinSegs (segs : FPath) (h : ∀ s ∈ segs, PlainSeg s) :
    insideRoot (joinSegs segs) = true := by
  unfold insideRoot
  rw [splitRel_joinSegs segs h, resolveSegs_plain segs (fun s hs => (h s hs).2.2.2.2)]
  rfl

/-- The cached-thumbnail path is the three plain segments
`project / pages / {page}_v{version}_thumb.jpg`. -/
theorem cached_path_shape (proj page : List Char) (v : Nat) :
    get_cached_image_path proj page v =
      joinSegs [proj, "pages".data,
        page ++ "_v".data ++ natChars v ++ "_thumb.jpg".data] := by
  show proj ++ "/pages/".data ++ page ++ "_v".data ++ natChars v ++ "_thumb.jpg".data =
    proj ++ '/' :: ("pages".data ++ '/' ::
      (page ++ "_v".data ++ natChars v ++ "_thumb.jpg".data))
  have hshape : ∀ X : List Char,
      "/pages/".data ++ X = '/' :: ("pages".data ++ '/' :: X) := fun _ => rfl
  simp [List.append_assoc, hshape]

/-- `file_exists` collapses to the `is_file` test (a file always also
exists). -/
theorem file_exists_eq_isFile (fs : FS) (p : List Char) :
    file_exists fs p = fs.isFile (splitRel p) := by
  unfold file_exists
  exact existsPath_and_isFile fs (splitRel p)

/-- Closed form of `delete_page_image_version`: the reported flag is the
primary's `is_file` test, the primary is unlinked when present, and then
the `{stem}_thumb.jpg` sibling is unlinked when present. -/
theorem delete_page_image_version_spec (fs : FS) (p : List Char) :
    delete_page_image_version fs p =
      (fs.isFile (splitRel p),
       let fs₁ := if fs.isFile (splitRel p) then fs.removeFile (splitRel p) else fs
       let cache := (splitRel p).dropLast ++
         [pyStem ((splitRel p).getLastD []) ++ "_thumb.jpg".data]
       if fs₁.isFile cache then fs₁.removeFile cache else fs₁) := by
  unfold delete_page_image_version
  simp only [existsPath_and_isFile]
  cases h : fs.isFile (splitRel p) <;> simp [h]

end ClaimSupport

/-- C4 counterexample: the claim says the resized height is
`round(height * maxWidth / width)`, but the code truncates
(`int(image.height * ratio)`).  At width 3000, height 1001, max width
1920 the exact scaled height is 640.64: the code produces 640, rounding
to nearest would produce 641. -/
theorem C4_counterexample :
    (resize_image_for_thumbnail (Img.whiteRGB 3000 1001) 1920).height ≠
      specRoundedHeight (Img.whiteRGB 3000 1001).height 1920
        (Img.whiteRGB 3000 1001).width ∧
    (resize_image_for_thumbnail (Img.whiteRGB 3000 1001) 1920).height = 640 ∧
    specRoundedHeight 1001 1920 3000 = 641 := by
  refine ⟨?_, ?_, ?_⟩ <;> decide

/-- C4 (amended): for every image whose width exceeds max width,
`resize_image_for_thumbnail` produces an output whose height equals
`height * maxWidth / width` truncated toward zero (floor division),
i.e. the input height scaled by `maxWidth/width` rounded *down*, not to
nearest. -/
theorem C4_amended (img : Img) (max_width : Nat) (h : img.width > max_width) :
    (resize_image_for_thumbnail img max_width).height =
      img.height * max_width / img.width := by
  simp [resize_image_for_thumbnail, if_pos h, Img.resizeTo]

/-- C4 witness: the amended theorem evaluated at a 3000x1001 image. -/
theorem C4_witness :
    (Img.whiteRGB 3000 1001).width > 1920 ∧
      (resize_image_for_thumbnail (Img.whiteRGB 3000 1001) 1920).height =
        (Img.whiteRGB 3000 1001).height * 1920 / (Img.whiteRGB 3000 1001).width :=
  ⟨by decide, C4_amended (Img.whiteRGB 3000 1001) 1920 (by decide)⟩

/-- C8: `resize_image_for_thumbnail` never increases the width; when the
input width exceeds max width the output width equals max width exactly,
and otherwise the image is returned unchanged. -/
theorem C8_resize_width (img : Img) (max_width : Nat) :
    (resize_image_for_thumbnail img max_width).width ≤ img.width ∧
    (img.width > max_width →
      (resize_image_for_thumbnail img max_width).width = max_width) ∧
    (¬ img.width > max_width → resize_image_for_thumbnail img max_width = img) := by
  by_cases h : img.width > max_width
  · refine ⟨?_, fun _ => ?_, fun h2 => absurd h h2⟩
    · simp only [resize_image_for_thumbnail, if_pos h, Img.resizeTo]
      omega
    · simp [resize_image_for_thumbnail, if_pos h, Img.resizeTo]
  · refine ⟨?_, fun h2 => absurd h2 h, fun _ => ?_⟩
    · simp [resize_image_for_thumbnail, if_neg h]
    · simp [resize_image_for_thumbnail, if_neg h]

/-- C8 witness: at a 3000-wide image and max width 1920 the output width
is exactly 1920. -/
theorem C8_witness :
    (Img.whiteRGB 3000 1001).width > 1920 ∧
      (resize_image_for_thumbnail (Img.whiteRGB 3000 1001) 1920).width = 1920 :=
  ⟨by decide, (C8_resize_width (Img.whiteRGB 3000 1001) 1920).2.1 (by decide)⟩

/-- C2 counterexample: with project id `".."` the path-derivation
operation `get_cached_image_path` returns `"../pages/p1_v1_thumb.jpg"`,
which joined to the storage root resolves *outside* the root — the code
never sanitises project/page ids, so the claim fails as stated. -/
theorem C2_counterexample :
    insideRoot (get_cached_image_path "..".data "p1".data 1) = false ∧
    get_cached_image_path "..".data "p1".data 1 = "../pages/p1_v1_thumb.jpg".data := by
  refine ⟨?_, ?_⟩ <;> decide

/-- C2 (amended): for project and page ids that are plain path segments
(nonempty, no separators, not `"."`/`".."` — the spec's valid ids) and a
format whose lowercased extension is a nonempty separator-free string,
every write or path-derivation operation returns a relative path that
resolves inside the storage root. -/
theorem C2_amended (fs : FS) (img : Img) (proj page fmt : List Char) (v ts : Nat)
    (hp : PlainSeg proj) (hg : PlainSeg page) (he1 : toLowerL fmt ≠ [])
    (he2 : '/' ∉ toLowerL fmt) (he3 : '\\' ∉ toLowerL fmt) :
    insideRoot (get_cached_image_path proj page v) = true ∧
    insideRoot (save_generated_image fs img proj page fmt (some v) ts).1 = true ∧
    insideRoot (save_generated_image fs img proj page fmt none ts).1 = true ∧
    insideRoot (save_material_image fs img (some proj) fmt ts).1 = true ∧
    insideRoot (save_material_image fs img none fmt ts).1 = true := by
  have hpagesSeg : PlainSeg ("pages".data) := by decide
  have hmatSeg : PlainSeg ("materials".data) := by decide
  have hthumb := plain_thumbname page v hg
  have hfv := plain_filename_v page (toLowerL fmt) v hg he1 he2 he3
  have hfts := plain_filename_ts page (toLowerL fmt) ts hg he1 he2 he3
  have hmn := plain_material_name (toLowerL fmt) ts he1 he2 he3
  refine ⟨?_, ?_, ?_, ?_, ?_⟩
  · rw [cached_path_shape proj page v]
    apply insideRoot_joinSegs
    intro s hs
    rcases List.mem_cons.mp hs with rfl | hs
    · exact hp
    rcases List.mem_cons.mp hs with rfl | hs
    · exact hpagesSeg
    rcases List.mem_cons.mp hs with rfl | hs
    · exact hthumb
    · simp at hs
  · have h2 : (save_generated_image fs img proj page fmt (some v) ts).1 =
        joinSegs ((splitSegs proj ++ ["pages".data]) ++
          splitSegs (page ++ "_v".data ++ natChars v ++ '.' :: toLowerL fmt)) := rfl
    rw [h2, splitSegs_single proj hp.2.1 hp.1 hp.2.2.2.1,
      splitSegs_single _ hfv.2.1 hfv.1 hfv.2.2.2.1]
    apply insideRoot_joinSegs
    intro s hs
    rcases List.mem_cons.mp hs with rfl | hs
    · exact hp
    rcases List.mem_cons.mp hs with rfl | hs
    · exact hpagesSeg
    rcases List.mem_cons.mp hs with rfl | hs
    · exact hfv
    · simp at hs
  · have h3 : (save_generated_image fs img proj page fmt none ts).1 =
        joinSegs ((splitSegs proj ++ ["pages".data]) ++
          splitSegs (page ++ '_' :: natChars ts ++ '.' :: toLowerL fmt)) := rfl
    rw [h3, splitSegs_single proj hp.2.1 hp.1 hp.2.2.2.1,
      splitSegs_single _ hfts.2.1 hfts.1 hfts.2.2.2.1]
    apply insideRoot_joinSegs
    intro s hs
    rcases List.mem_cons.mp hs with rfl | hs
    · exact hp
    rcases List.mem_cons.mp hs with rfl | hs
    · exact hpagesSeg
    rcases List.mem_cons.mp hs with rfl | hs
    · exact hfts
    · simp at hs
  · have h4 : (save_material_image fs img (some proj) fmt ts).1 =
        joinSegs ((splitSegs proj ++ ["materials".data]) ++
          splitSegs ("material_".data ++ natChars ts ++ '.' :: toLowerL fmt)) := rfl
    rw [h4, splitSegs_single proj hp.2.1 hp.1 hp.2.2.2.1,
      splitSegs_single _ hmn.2.1 hmn.1 hmn.2.2.2.1]
    apply insideRoot_joinSegs
    intro s hs
    rcases List.mem_cons.mp hs with rfl | hs
    · exact hp
    rcases List.mem_cons.mp hs with rfl | hs
    · exact hmatSeg
    rcases List.mem_cons.mp hs with rfl | hs
    · exact hmn
    · simp at hs
  · have h5 : (save_material_image fs img none fmt ts).1 =
        joinSegs (["materials".data] ++
          splitSegs ("material_".data ++ natChars ts ++ '.' :: toLowerL fmt)) := rfl
    rw [h5, splitSegs_single _ hmn.2.1 hmn.1 hmn.2.2.2.1]
    apply insideRoot_joinSegs
    intro s hs
    rcases List.mem_cons.mp hs with rfl | hs
    · exact hmatSeg
    rcases List.mem_cons.mp hs with rfl | hs
    · exact hmn
    · simp at hs

/-- C2 witness: the amended theorem at project `proj1`, page `p1`,
format `PNG`, version 1. -/
theorem C2_witness :
    insideRoot (get_cached_image_path "proj1".data "p1".data 1) = true ∧
    insideRoot (save_generated_image fsEmpty (Img.whiteRGB 1 1) "proj1".data
      "p1".data "PNG".data (some 1) 0).1 = true ∧
    insideRoot (save_generated_image fsEmpty (Img.whiteRGB 1 1) "proj1".data
      "p1".data "PNG".data none 0).1 = true ∧
    insideRoot (save_material_image fsEmpty (Img.whiteRGB 1 1) (some "proj1".data)
      "PNG".data 0).1 = true ∧
    insideRoot (save_material_image fsEmpty (Img.whiteRGB 1 1) none "PNG".data 0).1 = true :=
  C2_amended fsEmpty (Img.whiteRGB 1 1) "proj1".data "p1".data "PNG".data 1 0
    (by decide) (by decide) (by decide) (by decide) (by decide)


/-- C1 counterexample: the claim quantifies over every format, but for a
format containing a dot (`"tar.gz"`) the code's stem-based thumbnail
derivation (`{stem}_thumb.jpg` of `p1_v1.tar.gz` is `p1_v1.tar_thumb.jpg`)
misses the claimed thumbnail path `proj1/pages/p1_v1_thumb.jpg`: starting
from a state in which that thumbnail exists, after save-then-delete
`file_exists` on the claimed thumbnail path is still `true`. -/
theorem C1_counterexample :
    file_exists
      (delete_page_image_version
        (save_generated_image
          ⟨[(["proj1".data, "pages".data, "p1_v1_thumb.jpg".data], .bytes 0)],
            [["proj1".data], ["proj1".data, "pages".data]]⟩
          (Img.whiteRGB 1 1) "proj1".data "p1".data "tar.gz".data (some 1) 0).2
        (save_generated_image
          ⟨[(["proj1".data, "pages".data, "p1_v1_thumb.jpg".data], .bytes 0)],
            [["proj1".data], ["proj1".data, "pages".data]]⟩
          (Img.whiteRGB 1 1) "proj1".data "p1".data "tar.gz".data (some 1) 0).1).2
      ("proj1".data ++ "/pages/".data ++ "p1".data ++ "_v".data ++ natChars 1 ++
        "_thumb.jpg".data) = true := by
  decide

/-- C1 (amended): for plain-segment project and page ids (the spec's
valid identifiers) and a format whose lowercased extension is nonempty
and free of separators and dots, saving a versioned page image and then
calling `delete_page_image_version` on the returned path makes
`file_exists` false for the primary path — which equals
`{project}/pages/{page}_v{version}.{ext}` — and for the derived
thumbnail path `{project}/pages/{page}_v{version}_thumb.jpg`, and the
delete returns `true` (the primary was present and was removed). -/
theorem C1_amended (fs : FS) (img : Img) (proj page fmt : List Char) (v ts : Nat)
    (hp : PlainSeg proj) (hg : PlainSeg page) (he1 : toLowerL fmt ≠ [])
    (he2 : '/' ∉ toLowerL fmt) (he3 : '\\' ∉ toLowerL fmt)
    (he4 : '.' ∉ toLowerL fmt) :
    let r := save_generated_image fs img proj page fmt (some v) ts
    let d := delete_page_image_version r.2 r.1
    r.1 = proj ++ "/pages/".data ++ page ++ "_v".data ++ natChars v ++
        '.' :: toLowerL fmt ∧
    d.1 = true ∧
    file_exists d.2 r.1 = false ∧
    file_exists d.2 (proj ++ "/pages/".data ++ page ++ "_v".data ++ natChars v ++
        "_thumb.jpg".data) = false := by
  intro r d
  have hfv : PlainSeg (page ++ "_v".data ++ natChars v ++ '.' :: toLowerL fmt) :=
    plain_filename_v page (toLowerL fmt) v hg he1 he2 he3
  have hth : PlainSeg (page ++ "_v".data ++ natChars v ++ "_thumb.jpg".data) :=
    plain_thumbname page v hg
  have hpg : PlainSeg ("pages".data) := by decide
  have hshape : ∀ X : List Char,
      "/pages/".data ++ X = '/' :: ("pages".data ++ '/' :: X) := fun _ => rfl
  -- shape of the save result
  have hr1 : r.1 = joinSegs [proj, "pages".data,
      page ++ "_v".data ++ natChars v ++ '.' :: toLowerL fmt] := by
    show joinSegs ((splitSegs proj ++ ["pages".data]) ++
      splitSegs (page ++ "_v".data ++ natChars v ++ '.' :: toLowerL fmt)) = _
    rw [splitSegs_single proj hp.2.1 hp.1 hp.2.2.2.1,
      splitSegs_single _ hfv.2.1 hfv.1 hfv.2.2.2.1]
    rfl
  have hstr : r.1 = proj ++ "/pages/".data ++ page ++ "_v".data ++ natChars v ++
      '.' :: toLowerL fmt := by
    rw [hr1]
    show proj ++ '/' :: ("pages".data ++ '/' ::
      (page ++ "_v".data ++ natChars v ++ '.' :: toLowerL fmt)) = _
    simp [List.append_assoc, hshape]
  have hplist : ∀ s ∈ [proj, "pages".data,
      page ++ "_v".data ++ natChars v ++ '.' :: toLowerL fmt], PlainSeg s := by
    intro s hs
    rcases List.mem_cons.mp hs with rfl | hs
    · exact hp
    rcases List.mem_cons.mp hs with rfl | hs
    · exact hpg
    rcases List.mem_cons.mp hs with rfl | hs
    · exact hfv
    · simp at hs
  have hsplit : splitRel r.1 = [proj, "pages".data,
      page ++ "_v".data ++ natChars v ++ '.' :: toLowerL fmt] := by
    rw [hr1]; exact splitRel_joinSegs _ hplist
  -- the freshly written primary is readable
  have hread : r.2.read [proj, "pages".data,
      page ++ "_v".data ++ natChars v ++ '.' :: toLowerL fmt] =
      some (.image img (toLowerL fmt) none) := by
    have hr2 : r.2 = ((fs.mkdirp (splitSegs proj)).mkdirp
        (splitSegs proj ++ ["pages".data])).writeFile
        ((splitSegs proj ++ ["pages".data]) ++
          splitSegs (page ++ "_v".data ++ natChars v ++ '.' :: toLowerL fmt))
        (.image img (toLowerL fmt) none) := rfl
    rw [hr2, splitSegs_single proj hp.2.1 hp.1 hp.2.2.2.1,
      splitSegs_single _ hfv.2.1 hfv.1 hfv.2.2.2.1]
    exact read_writeFile_self _ _ _
  have hisf : r.2.isFile [proj, "pages".data,
      page ++ "_v".data ++ natChars v ++ '.' :: toLowerL fmt] = true := by
    unfold FS.isFile
    rw [hread]
    rfl
  -- stem of the version-numbered name
  have hstem : pyStem (page ++ "_v".data ++ natChars v ++ '.' :: toLowerL fmt) =
      page ++ "_v".data ++ natChars v := by
    have ha : page ++ "_v".data ++ natChars v ≠ [] := by
      simp [hg.1]
    exact pyStem_append_ext _ _ ha he1 he4
  -- the in-code cache path equals the claimed thumbnail path
  have hcache : ([proj, "pages".data,
        page ++ "_v".data ++ natChars v ++ '.' :: toLowerL fmt].dropLast ++
      [pyStem ([proj, "pages".data,
        page ++ "_v".data ++ natChars v ++ '.' :: toLowerL fmt].getLastD []) ++
        "_thumb.jpg".data]) =
      [proj, "pages".data, page ++ "_v".data ++ natChars v ++ "_thumb.jpg".data] := by
    rw [show ([proj, "pages".data,
        page ++ "_v".data ++ natChars v ++ '.' :: toLowerL fmt] : FPath).getLastD [] =
        page ++ "_v".data ++ natChars v ++ '.' :: toLowerL fmt from rfl, hstem]
    rfl
  -- the primary and the thumbnail are distinct names
  have hne : (page ++ "_v".data ++ natChars v ++ '.' :: toLowerL fmt) ≠
      (page ++ "_v".data ++ natChars v ++ "_thumb.jpg".data) := by
    intro h
    have := List.append_cancel_left h
    simp at this
  have hnep : ([proj, "pages".data,
        page ++ "_v".data ++ natChars v ++ '.' :: toLowerL fmt] : FPath) ≠
      [proj, "pages".data, page ++ "_v".data ++ natChars v ++ "_thumb.jpg".data] := by
    simp [hne]
  -- components of the delete
  have hd1 : d.1 = r.2.isFile (splitRel r.1) :=
    congrArg Prod.fst (delete_page_image_version_spec r.2 r.1)
  have hd2 : d.2 =
      (if (if r.2.isFile (splitRel r.1) then r.2.removeFile (splitRel r.1) else r.2).isFile
          ((splitRel r.1).dropLast ++
            [pyStem ((splitRel r.1).getLastD []) ++ "_thumb.jpg".data]) then
        (if r.2.isFile (splitRel r.1) then r.2.removeFile (splitRel r.1) else r.2).removeFile
          ((splitRel r.1).dropLast ++
            [pyStem ((splitRel r.1).getLastD []) ++ "_thumb.jpg".data])
      else (if r.2.isFile (splitRel r.1) then r.2.removeFile (splitRel r.1) else r.2)) :=
    congrArg Prod.snd (delete_page_image_version_spec r.2 r.1)
  rw [hsplit, hisf] at hd2
  simp only [if_true] at hd2
  rw [hcache] at hd2
  -- the claimed thumbnail string parses to the cache path
  have hthsplit : splitRel (proj ++ "/pages/".data ++ page ++ "_v".data ++
      natChars v ++ "_thumb.jpg".data) =
      [proj, "pages".data, page ++ "_v".data ++ natChars v ++ "_thumb.jpg".data] := by
    rw [show proj ++ "/pages/".data ++ page ++ "_v".data ++ natChars v ++
        "_thumb.jpg".data = joinSegs [proj, "pages".data,
          page ++ "_v".data ++ natChars v ++ "_thumb.jpg".data] from
        cached_path_shape proj page v]
    apply splitRel_joinSegs
    intro s hs
    rcases List.mem_cons.mp hs with rfl | hs
    · exact hp
    rcases List.mem_cons.mp hs with rfl | hs
    · exact hpg
    rcases List.mem_cons.mp hs with rfl | hs
    · exact hth
    · simp at hs
  refine ⟨hstr, ?_, ?_, ?_⟩
  · rw [hd1, hsplit]
    exact hisf
  · rw [file_exists_eq_isFile, hsplit, hd2]
    cases hC : (r.2.removeFile [proj, "pages".data,
        page ++ "_v".data ++ natChars v ++ '.' :: toLowerL fmt]).isFile
        [proj, "pages".data, page ++ "_v".data ++ natChars v ++ "_thumb.jpg".data]
    · rw [if_neg Bool.false_ne_true]
      unfold FS.isFile
      rw [read_removeFile_self]
      rfl
    · rw [if_pos rfl]
      unfold FS.isFile
      rw [read_removeFile_ne _ _ _ hnep, read_removeFile_self]
      rfl
  · rw [file_exists_eq_isFile, hthsplit, hd2]
    cases hC : (r.2.removeFile [proj, "pages".data,
        page ++ "_v".data ++ natChars v ++ '.' :: toLowerL fmt]).isFile
        [proj, "pages".data, page ++ "_v".data ++ natChars v ++ "_thumb.jpg".data]
    · rw [if_neg Bool.false_ne_true]
      exact hC
    · rw [if_pos rfl]
      unfold FS.isFile
      rw [read_removeFile_self]
      rfl

/-- C1 witness: the amended theorem at project `proj1`, page `p1`,
format `PNG`, version 1. -/
theorem C1_witness :
    let r := save_generated_image fsEmpty (Img.whiteRGB 1 1) "proj1".data "p1".data
      "PNG".data (some 1) 0
    let d := delete_page_image_version r.2 r.1
    r.1 = "proj1".data ++ "/pages/".data ++ "p1".data ++ "_v".data ++ natChars 1 ++
        '.' :: toLowerL "PNG".data ∧
    d.1 = true ∧
    file_exists d.2 r.1 = false ∧
    file_exists d.2 ("proj1".data ++ "/pages/".data ++ "p1".data ++ "_v".data ++
        natChars 1 ++ "_thumb.jpg".data) = false :=
  C1_amended fsEmpty (Img.whiteRGB 1 1) "proj1".data "p1".data "PNG".data 1 0
    (by decide) (by decide) (by decide) (by decide) (by decide) (by decide)


section AncestorLemmas

theorem mem_ancestorsOf_self (p : FPath) (h : p ≠ []) : p ∈ ancestorsOf p := by
  unfold ancestorsOf
  rw [List.mem_filter]
  exact ⟨(List.mem_inits p p).mpr (List.prefix_refl p), decide_eq_true h⟩

theorem mem_ancestorsOf_append (p q : FPath) (h : p ≠ []) : p ∈ ancestorsOf (p ++ q) := by
  unfold ancestorsOf
  rw [List.mem_filter]
  exact ⟨(List.mem_inits p (p ++ q)).mpr (List.prefix_append p q), decide_eq_true h⟩

end AncestorLemmas

/-- C10: calling `delete_template` or `delete_page_image` on a project
whose directory tree does not exist creates the project directory and
its `template` (resp. `pages`) subdirectory as a side effect, and still
returns `true` — the delete operations are not free of creation effects
on an absent project. -/
theorem C10_delete_creates_dirs (fs : FS) (proj page : List Char)
    (hp : PlainSeg proj) (_habs : [proj] ∉ fs.dirs) :
    (delete_template fs proj).1 = true ∧
    [proj] ∈ (delete_template fs proj).2.dirs ∧
    [proj, "template".data] ∈ (delete_template fs proj).2.dirs ∧
    (delete_page_image fs proj page).1 = true ∧
    [proj] ∈ (delete_page_image fs proj page).2.dirs ∧
    [proj, "pages".data] ∈ (delete_page_image fs proj page).2.dirs := by
  have hds : ∀ sub : Seg,
      (((fs.mkdirp (splitSegs proj)).mkdirp (splitSegs proj ++ [sub]))).dirs =
      (((fs.mkdirp [proj]).mkdirp ([proj] ++ [sub]))).dirs := by
    intro sub
    rw [splitSegs_single proj hp.2.1 hp.1 hp.2.2.2.1]
  have hmem : ∀ sub : Seg,
      [proj] ∈ (((fs.mkdirp [proj]).mkdirp ([proj] ++ [sub]))).dirs ∧
      [proj, sub] ∈ (((fs.mkdirp [proj]).mkdirp ([proj] ++ [sub]))).dirs := by
    intro sub
    constructor
    · exact mem_dirs_mkdirp_superset _ _ _
        (mem_dirs_mkdirp_self _ _ _ (mem_ancestorsOf_self [proj] (by simp)))
    · exact mem_dirs_mkdirp_self _ _ _
        (mem_ancestorsOf_append [proj, sub] [] (by simp))
  have ht1 : (delete_template fs proj).2.dirs =
      (((fs.mkdirp (splitSegs proj)).mkdirp
        (splitSegs proj ++ ["template".data]))).dirs := rfl
  have hp1 : (delete_page_image fs proj page).2.dirs =
      (((fs.mkdirp (splitSegs proj)).mkdirp
        (splitSegs proj ++ ["pages".data]))).dirs := rfl
  refine ⟨rfl, ?_, ?_, rfl, ?_, ?_⟩
  · rw [ht1, hds]
    exact (hmem "template".data).1
  · rw [ht1, hds]
    exact (hmem "template".data).2
  · rw [hp1, hds]
    exact (hmem "pages".data).1
  · rw [hp1, hds]
    exact (hmem "pages".data).2

/-- C10 witness: on the empty root, the two deletes at project `proj1`. -/
theorem C10_witness :
    (delete_template fsEmpty "proj1".data).1 = true ∧
    ["proj1".data] ∈ (delete_template fsEmpty "proj1".data).2.dirs ∧
    ["proj1".data, "template".data] ∈ (delete_template fsEmpty "proj1".data).2.dirs ∧
    (delete_page_image fsEmpty "proj1".data "p1".data).1 = true ∧
    ["proj1".data] ∈ (delete_page_image fsEmpty "proj1".data "p1".data).2.dirs ∧
    ["proj1".data, "pages".data] ∈
      (delete_page_image fsEmpty "proj1".data "p1".data).2.dirs :=
  C10_delete_creates_dirs fsEmpty "proj1".data "p1".data (by decide) (by decide)


/-- C3: for UUID-shaped (valid) project and page ids,
`delete_page_image` removes exactly the files in the project's pages
directory whose names begin with `{page_id}_` (all versions and all
thumbnails of that page), leaves every file that does not match — in
particular every file of any other valid page id — untouched, and
returns `true` even when no file matched. -/
theorem C3_delete_page_exact (fs : FS) (proj page : List Char)
    (hp : ValidId proj) (hg : ValidId page) :
    (delete_page_image fs proj page).1 = true ∧
    (∀ name : Seg, (page ++ ['_']).isPrefixOf name = true →
      (delete_page_image fs proj page).2.read [proj, "pages".data, name] = none) ∧
    (∀ p : FPath, ¬ (isChildOf [proj, "pages".data] p ∧
        (page ++ ['_']).isPrefixOf (p.getLastD []) = true) →
      (delete_page_image fs proj page).2.read p = fs.read p) ∧
    (∀ q name : Seg, ValidId q → q ≠ page →
      (q ++ ['_']).isPrefixOf name = true →
      (delete_page_image fs proj page).2.read [proj, "pages".data, name] =
        fs.read [proj, "pages".data, name]) := by
  have hps := validId_plainSeg proj hp
  have e1 : delete_page_image fs proj page =
      (true, FS.mk
        (fs.files.filter (fun e => decide (¬ (isChildOf
          (splitSegs proj ++ ["pages".data]) e.1 ∧
          (page ++ ['_']).isPrefixOf (e.1.getLastD []) = true))))
        (((fs.mkdirp (splitSegs proj)).mkdirp
          (splitSegs proj ++ ["pages".data]))).dirs) := rfl
  simp only [splitSegs_single proj hps.2.1 hps.1 hps.2.2.2.1,
    List.cons_append, List.nil_append] at e1
  refine ⟨by rw [e1], ?_, ?_, ?_⟩
  · intro name hpre
    rw [e1]
    unfold FS.read
    rw [find?_filter_false]
    · rfl
    · intro d
      simp [isChildOf, hpre]
  · intro p hnm
    rw [e1]
    unfold FS.read
    rw [find?_filter_true]
    intro d
    exact decide_eq_true hnm
  · intro q name hq hne hpre
    have hfalse := isPrefixOf_false_of_validId page q hg hq hne name hpre
    rw [e1]
    unfold FS.read
    rw [find?_filter_true]
    intro d
    apply decide_eq_true
    intro hcon
    have h2 : (page ++ ['_']).isPrefixOf name = true := hcon.2
    rw [hfalse] at h2
    exact absurd h2 (by decide)

/-- A small populated state for the C3 witness: two versions and a
thumbnail of page `p1`, one file of page `p2`, one template file. -/
def fsC3 : FS :=
  ⟨[(["proj1".data, "pages".data, "p1_v1.png".data], .bytes 1),
    (["proj1".data, "pages".data, "p1_v1_thumb.jpg".data], .bytes 2),
    (["proj1".data, "pages".data, "p1_v2.png".data], .bytes 3),
    (["proj1".data, "pages".data, "p2_v1.png".data], .bytes 4),
    (["proj1".data, "template".data, "template.png".data], .bytes 5)],
   [["proj1".data], ["proj1".data, "pages".data], ["proj1".data, "template".data]]⟩

/-- C3 witness: the exactness theorem applied to the populated state. -/
theorem C3_witness :
    (delete_page_image fsC3 "proj1".data "p1".data).1 = true ∧
    (∀ name : Seg, ("p1".data ++ ['_']).isPrefixOf name = true →
      (delete_page_image fsC3 "proj1".data "p1".data).2.read
        ["proj1".data, "pages".data, name] = none) ∧
    (∀ p : FPath, ¬ (isChildOf ["proj1".data, "pages".data] p ∧
        ("p1".data ++ ['_']).isPrefixOf (p.getLastD []) = true) →
      (delete_page_image fsC3 "proj1".data "p1".data).2.read p = fsC3.read p) ∧
    (∀ q name : Seg, ValidId q → q ≠ "p1".data →
      (q ++ ['_']).isPrefixOf name = true →
      (delete_page_image fsC3 "proj1".data "p1".data).2.read
        ["proj1".data, "pages".data, name] =
        fsC3.read ["proj1".data, "pages".data, name]) :=
  C3_delete_page_exact fsC3 "proj1".data "p1".data (by decide) (by decide)


section RelocLemmas

/-- Closed form of `copy_material_file`. -/
theorem copy_material_file_eq (fs : FS) (rel : List Char)
    (tgt : Option (List Char)) (ts : Nat) :
    copy_material_file fs rel tgt ts =
      (if fs.existsPath (splitRel rel) = false then (.error .notFound, fs)
       else
        match ((get_materials_target_dir fs tgt).2).read (splitRel rel) with
        | some d =>
          (.ok (joinSegs ((get_materials_target_dir fs tgt).1 ++
              [generate_material_filename ts ((splitRel rel).getLastD [])]),
            generate_material_filename ts ((splitRel rel).getLastD [])),
           ((get_materials_target_dir fs tgt).2).writeFile
             ((get_materials_target_dir fs tgt).1 ++
              [generate_material_filename ts ((splitRel rel).getLastD [])]) d)
        | none => (.error .isADirectory, (get_materials_target_dir fs tgt).2)) := by
  cases tgt <;> rfl

/-- Closed form of `move_material_file`. -/
theorem move_material_file_eq (fs : FS) (rel : List Char)
    (tgt : Option (List Char)) (ts : Nat) :
    move_material_file fs rel tgt ts =
      (if fs.existsPath (splitRel rel) = false then (.error .notFound, fs)
       else if (splitRel rel).dropLast = (get_materials_target_dir fs tgt).1 then
         (.ok (rel, (splitRel rel).getLastD []), (get_materials_target_dir fs tgt).2)
       else
        match ((get_materials_target_dir fs tgt).2).read (splitRel rel) with
        | some d =>
          (.ok (joinSegs ((get_materials_target_dir fs tgt).1 ++
              [generate_material_filename ts ((splitRel rel).getLastD [])]),
            generate_material_filename ts ((splitRel rel).getLastD [])),
           (((get_materials_target_dir fs tgt).2).removeFile (splitRel rel)).writeFile
             ((get_materials_target_dir fs tgt).1 ++
              [generate_material_filename ts ((splitRel rel).getLastD [])]) d)
        | none =>
          (.ok (joinSegs ((get_materials_target_dir fs tgt).1 ++
              [generate_material_filename ts ((splitRel rel).getLastD [])]),
            generate_material_filename ts ((splitRel rel).getLastD [])),
           ((get_materials_target_dir fs tgt).2).renameTree (splitRel rel)
             ((get_materials_target_dir fs tgt).1 ++
              [generate_material_filename ts ((splitRel rel).getLastD [])]))) := by
  cases tgt <;> rfl

/-- The materials-target-dir resolution only creates directories: reads
are untouched. -/
theorem read_materials_target_dir (fs : FS) (tgt : Option (List Char)) (p : FPath) :
    ((get_materials_target_dir fs tgt).2).read p = fs.read p := by
  cases tgt <;> rfl

/-- Prefixes of a list are prefixes of its extensions. -/
theorem ancestorsOf_append_subset (a b : FPath) (q : FPath) (h : q ∈ ancestorsOf a) :
    q ∈ ancestorsOf (a ++ b) := by
  unfold ancestorsOf at h ⊢
  rw [List.mem_filter] at h ⊢
  exact ⟨(List.mem_inits q (a ++ b)).mpr
    (((List.mem_inits q a).mp h.1).trans (List.prefix_append a b)), h.2⟩

instance : ∀ fs : FS, Decidable fs.WF := fun fs => by
  unfold FS.WF
  infer_instance

end RelocLemmas

/-- C5: `copy_material_file` leaves the source file intact (same
readable content); `move_material_file` to a different scope makes the
source path non-resolvable afterwards; and `move_material_file` whose
source already resides in the resolved target directory is a no-op that
returns the unchanged relative path and filename without touching the
filesystem. -/
theorem C5_copy_move :
    (∀ (fs : FS) (rel : List Char) (tgt : Option (List Char)) (ts : Nat),
      fs.isFile (splitRel rel) = true →
      ((copy_material_file fs rel tgt ts).2.read (splitRel rel) =
          fs.read (splitRel rel) ∧
       (copy_material_file fs rel tgt ts).2.isFile (splitRel rel) = true)) ∧
    (∀ (fs : FS) (rel : List Char) (tgt : Option (List Char)) (ts : Nat),
      fs.isFile (splitRel rel) = true →
      (splitRel rel).dropLast ≠ (get_materials_target_dir fs tgt).1 →
      file_exists (move_material_file fs rel tgt ts).2 rel = false) ∧
    (∀ (fs : FS) (rel : List Char) (tgt : Option (List Char)) (ts : Nat),
      fs.WF → fs.isFile (splitRel rel) = true →
      (splitRel rel).dropLast = (get_materials_target_dir fs tgt).1 →
      move_material_file fs rel tgt ts =
        (.ok (rel, (splitRel rel).getLastD []), fs)) := by
  refine ⟨?_, ?_, ?_⟩
  · intro fs rel tgt ts hfile
    obtain ⟨dd, hdd⟩ : ∃ dd, fs.read (splitRel rel) = some dd := by
      cases h : fs.read (splitRel rel) with
      | none => rw [FS.isFile, h] at hfile; exact absurd hfile (by decide)
      | some d => exact ⟨d, rfl⟩
    have hex : fs.existsPath (splitRel rel) = true := by
      simp [FS.existsPath, hfile]
    have hmt : ((get_materials_target_dir fs tgt).2).read (splitRel rel) = some dd :=
      (read_materials_target_dir fs tgt _).trans hdd
    have hcopy := copy_material_file_eq fs rel tgt ts
    rw [hex, hmt] at hcopy
    rw [if_neg (by decide : ¬ ((true : Bool) = false))] at hcopy
    have hsnd : (copy_material_file fs rel tgt ts).2 =
        ((get_materials_target_dir fs tgt).2).writeFile
          ((get_materials_target_dir fs tgt).1 ++
            [generate_material_filename ts ((splitRel rel).getLastD [])]) dd :=
      (congrArg Prod.snd hcopy).trans rfl
    have hread2 : (copy_material_file fs rel tgt ts).2.read (splitRel rel) =
        fs.read (splitRel rel) := by
      rw [hsnd]
      by_cases hsrc : splitRel rel = (get_materials_target_dir fs tgt).1 ++
          [generate_material_filename ts ((splitRel rel).getLastD [])]
      · rw [show (get_materials_target_dir fs tgt).1 ++
            [generate_material_filename ts ((splitRel rel).getLastD [])] =
            splitRel rel from hsrc.symm, read_writeFile_self, hdd]
      · rw [read_writeFile_ne _ _ _ _ hsrc]
        exact read_materials_target_dir fs tgt _
    refine ⟨hread2, ?_⟩
    rw [FS.isFile, hread2, hdd]
    rfl
  · intro fs rel tgt ts hfile hdiff
    obtain ⟨dd, hdd⟩ : ∃ dd, fs.read (splitRel rel) = some dd := by
      cases h : fs.read (splitRel rel) with
      | none => rw [FS.isFile, h] at hfile; exact absurd hfile (by decide)
      | some d => exact ⟨d, rfl⟩
    have hex : fs.existsPath (splitRel rel) = true := by
      simp [FS.existsPath, hfile]
    have hmt : ((get_materials_target_dir fs tgt).2).read (splitRel rel) = some dd :=
      (read_materials_target_dir fs tgt _).trans hdd
    have hmove := move_material_file_eq fs rel tgt ts
    rw [hex, hmt] at hmove
    rw [if_neg (by decide : ¬ ((true : Bool) = false)), if_neg hdiff] at hmove
    have hsnd : (move_material_file fs rel tgt ts).2 =
        (((get_materials_target_dir fs tgt).2).removeFile (splitRel rel)).writeFile
          ((get_materials_target_dir fs tgt).1 ++
            [generate_material_filename ts ((splitRel rel).getLastD [])]) dd :=
      (congrArg Prod.snd hmove).trans rfl
    have hne : splitRel rel ≠ (get_materials_target_dir fs tgt).1 ++
        [generate_material_filename ts ((splitRel rel).getLastD [])] := by
      intro h
      apply hdiff
      rw [h, List.dropLast_concat]
    rw [file_exists_eq_isFile, hsnd, FS.isFile,
      read_writeFile_ne _ _ _ _ hne, read_removeFile_self]
    rfl
  · intro fs rel tgt ts hwf hfile heq
    have hex : fs.existsPath (splitRel rel) = true := by
      simp [FS.existsPath, hfile]
    have hmem := isFile_mem_keys fs (splitRel rel) hfile
    have hanc : ∀ q ∈ ancestorsOf ((splitRel rel).dropLast), q ∈ fs.dirs :=
      hwf.1 (splitRel rel) hmem
    have hfs1 : (get_materials_target_dir fs tgt).2 = fs := by
      cases tgt with
      | none =>
        show fs.mkdirp ["materials".data] = fs
        apply mkdirp_noop
        intro q hq
        apply hanc
        rw [heq]
        exact hq
      | some pid =>
        show (fs.mkdirp (splitSegs pid)).mkdirp (splitSegs pid ++ ["materials".data]) = fs
        have h1 : fs.mkdirp (splitSegs pid) = fs := by
          apply mkdirp_noop
          intro q hq
          apply hanc
          rw [heq]
          exact ancestorsOf_append_subset _ _ _ hq
        rw [h1]
        apply mkdirp_noop
        intro q hq
        apply hanc
        rw [heq]
        exact hq
    have hmove := move_material_file_eq fs rel tgt ts
    rw [hex] at hmove
    rw [if_neg (by decide : ¬ ((true : Bool) = false)), if_pos heq, hfs1] at hmove
    exact hmove

/-- C5 witness: copy to global keeps the source readable; move to a
project scope invalidates the source; move to the source's own scope is
the identity. -/
theorem C5_witness :
    ((copy_material_file fsMat "materials/a.png".data none 5).2.read
        (splitRel "materials/a.png".data) =
      fsMat.read (splitRel "materials/a.png".data) ∧
     (copy_material_file fsMat "materials/a.png".data none 5).2.isFile
        (splitRel "materials/a.png".data) = true) ∧
    file_exists (move_material_file fsMat "materials/a.png".data
      (some "proj2".data) 5).2 "materials/a.png".data = false ∧
    move_material_file fsMat "materials/a.png".data none 5 =
      (.ok ("materials/a.png".data, (splitRel "materials/a.png".data).getLastD []),
       fsMat) :=
  ⟨C5_copy_move.1 fsMat "materials/a.png".data none 5 (by decide),
   C5_copy_move.2.1 fsMat "materials/a.png".data (some "proj2".data) 5
     (by decide) (by decide),
   C5_copy_move.2.2 fsMat "materials/a.png".data none 5 (by decide) (by decide)
     (by decide)⟩

/-- C6 counterexample: a source path that resolves to a *directory* is
not an existing file, yet `copy_material_file` does not raise
`NotFound` (the underlying copy raises `IsADirectoryError` instead), so
"NotFound iff the source is not an existing file" fails right-to-left. -/
theorem C6_counterexample :
    (FS.mk [] [["materials".data], ["materials".data, "d".data]]).isFile
      (splitRel "materials/d".data) = false ∧
    (copy_material_file (FS.mk [] [["materials".data], ["materials".data, "d".data]])
      "materials/d".data none 0).1 ≠ .error .notFound := by
  exact ⟨by decide, by decide⟩

/-- C6 (amended): `copy_material_file` and `move_material_file` raise
`NotFound` if and only if the source path does not resolve to an
existing file *or directory* (i.e. `Path.exists()` is false), and on
that error the filesystem state is returned unchanged (no file or
directory is created, removed, or modified). -/
theorem C6_amended :
    (∀ (fs : FS) (rel : List Char) (tgt : Option (List Char)) (ts : Nat),
      ((copy_material_file fs rel tgt ts).1 = .error .notFound ↔
        fs.existsPath (splitRel rel) = false) ∧
      (fs.existsPath (splitRel rel) = false →
        copy_material_file fs rel tgt ts = (.error .notFound, fs))) ∧
    (∀ (fs : FS) (rel : List Char) (tgt : Option (List Char)) (ts : Nat),
      ((move_material_file fs rel tgt ts).1 = .error .notFound ↔
        fs.existsPath (splitRel rel) = false) ∧
      (fs.existsPath (splitRel rel) = false →
        move_material_file fs rel tgt ts = (.error .notFound, fs))) := by
  constructor
  · intro fs rel tgt ts
    have hcopy := copy_material_file_eq fs rel tgt ts
    cases hex : fs.existsPath (splitRel rel) with
    | false =>
      rw [hex, if_pos rfl] at hcopy
      exact ⟨by rw [hcopy]; simp, fun _ => hcopy⟩
    | true =>
      rw [hex, if_neg (by decide : ¬ ((true : Bool) = false))] at hcopy
      refine ⟨⟨fun h => ?_, fun h => absurd h (by decide)⟩,
        fun h => absurd h (by decide)⟩
      exfalso
      cases hr : ((get_materials_target_dir fs tgt).2).read (splitRel rel) with
      | some d =>
        rw [hr] at hcopy
        rw [congrArg Prod.fst hcopy] at h
        exact absurd h (by simp)
      | none =>
        rw [hr] at hcopy
        rw [congrArg Prod.fst hcopy] at h
        simp at h
  · intro fs rel tgt ts
    have hmove := move_material_file_eq fs rel tgt ts
    cases hex : fs.existsPath (splitRel rel) with
    | false =>
      rw [hex, if_pos rfl] at hmove
      exact ⟨by rw [hmove]; simp, fun _ => hmove⟩
    | true =>
      rw [hex, if_neg (by decide : ¬ ((true : Bool) = false))] at hmove
      refine ⟨⟨fun h => ?_, fun h => absurd h (by decide)⟩,
        fun h => absurd h (by decide)⟩
      exfalso
      by_cases hd : (splitRel rel).dropLast = (get_materials_target_dir fs tgt).1
      · rw [if_pos hd] at hmove
        rw [congrArg Prod.fst hmove] at h
        exact absurd h (by simp)
      · rw [if_neg hd] at hmove
        cases hr : ((get_materials_target_dir fs tgt).2).read (splitRel rel) with
        | some d =>
          rw [hr] at hmove
          rw [congrArg Prod.fst hmove] at h
          exact absurd h (by simp)
        | none =>
          rw [hr] at hmove
          rw [congrArg Prod.fst hmove] at h
          exact absurd h (by simp)

/-- C6 witness: on the empty root both operations report `NotFound` and
leave the state untouched. -/
theorem C6_witness :
    copy_material_file fsEmpty "x.png".data none 0 = (.error .notFound, fsEmpty) ∧
    move_material_file fsEmpty "x.png".data none 0 = (.error .notFound, fsEmpty) :=
  ⟨(C6_amended.1 fsEmpty "x.png".data none 0).2 (by decide),
   (C6_amended.2 fsEmpty "x.png".data none 0).2 (by decide)⟩


section ImageLemmas

theorem convertRGB_len (i : Img) (hwf : i.WF) (x y : Nat) :
    ((Img.convertRGB i).px x y).length = 3 := by
  have h := hwf.1 x y
  cases hm : i.mode with
  | RGB =>
    rw [hm, Mode.channels] at h
    simp [Img.convertRGB, hm, h]
  | RGBA =>
    rw [hm, Mode.channels] at h
    simp [Img.convertRGB, hm, List.length_take, h]
  | LA =>
    rw [hm, Mode.channels] at h
    cases hpx : i.px x y with
    | nil => rw [hpx] at h; simp at h
    | cons a rest => simp [Img.convertRGB, hm, hpx]
  | P =>
    simp [Img.convertRGB, hm, List.length_take, hwf.2]
  | L =>
    rw [hm, Mode.channels] at h
    cases hpx : i.px x y with
    | nil => rw [hpx] at h; simp at h
    | cons a rest => simp [Img.convertRGB, hm, hpx]

theorem paletteToRGBA_WF (i : Img) (hwf : i.WF) : (Img.paletteToRGBA i).WF :=
  ⟨fun _ _ => hwf.2 _, hwf.2⟩

end ImageLemmas

/-- C7: `convert_image_to_rgb` maps every image with an alpha or
palette channel to an exactly three-channel RGB image with no
transparency, equal to the white-background composite that uses the
alpha (or last) channel of the alpha-bearing expansion as blend mask
(palette images are first expanded to RGBA); an image already in plain
three-channel RGB mode is returned unchanged; and any other mode is
converted directly to RGB. -/
theorem C7_convert_rgb (img : Img) (hwf : img.WF) :
    (convert_image_to_rgb img).mode = .RGB ∧
    Mode.channels (convert_image_to_rgb img).mode = 3 ∧
    Mode.hasTransparency (convert_image_to_rgb img).mode = false ∧
    (∀ x y, ((convert_image_to_rgb img).px x y).length = 3) ∧
    (img.mode.hasTransparency = true →
      convert_image_to_rgb img = specWhiteComposite img) ∧
    (img.mode = .RGB → convert_image_to_rgb img = img) ∧
    (img.mode ≠ .RGB → img.mode.hasTransparency = false →
      convert_image_to_rgb img = img.convertRGB) := by
  cases hm : img.mode with
  | RGBA =>
    have hceq : convert_image_to_rgb img = specWhiteComposite img := by
      simp [convert_image_to_rgb, specWhiteComposite, hm]
      try rfl
    refine ⟨by rw [hceq]; rfl, by rw [hceq]; rfl, by rw [hceq]; rfl, ?_,
      fun _ => hceq, fun h => absurd h (by decide),
      fun _ h2 => absurd h2 (by decide)⟩
    intro x y
    rw [hceq]
    simp [specWhiteComposite, hm, convertRGB_len img hwf]
  | LA =>
    have hceq : convert_image_to_rgb img = specWhiteComposite img := by
      simp [convert_image_to_rgb, specWhiteComposite, hm]
      try rfl
    refine ⟨by rw [hceq]; rfl, by rw [hceq]; rfl, by rw [hceq]; rfl, ?_,
      fun _ => hceq, fun h => absurd h (by decide),
      fun _ h2 => absurd h2 (by decide)⟩
    intro x y
    rw [hceq]
    simp [specWhiteComposite, hm, convertRGB_len img hwf]
  | P =>
    have hceq : convert_image_to_rgb img = specWhiteComposite img := by
      simp [convert_image_to_rgb, specWhiteComposite, hm, Img.paletteToRGBA]
      try rfl
    refine ⟨by rw [hceq]; rfl, by rw [hceq]; rfl, by rw [hceq]; rfl, ?_,
      fun _ => hceq, fun h => absurd h (by decide),
      fun _ h2 => absurd h2 (by decide)⟩
    intro x y
    rw [hceq]
    simp [specWhiteComposite, hm,
      convertRGB_len (Img.paletteToRGBA img) (paletteToRGBA_WF img hwf)]
  | RGB =>
    have hceq : convert_image_to_rgb img = img := by
      simp [convert_image_to_rgb, hm]
    refine ⟨by rw [hceq]; exact hm, by rw [hceq, hm]; rfl, by rw [hceq, hm]; rfl, ?_,
      fun h => absurd h (by decide), fun _ => hceq,
      fun h _ => absurd rfl h⟩
    intro x y
    rw [hceq]
    have h := hwf.1 x y
    rw [hm, Mode.channels] at h
    exact h
  | L =>
    have hceq : convert_image_to_rgb img = img.convertRGB := by
      simp [convert_image_to_rgb, hm]
    refine ⟨by rw [hceq]; rfl, by rw [hceq]; rfl, by rw [hceq]; rfl, ?_,
      fun h => absurd h (by decide),
      fun h => absurd h (by decide), fun _ _ => hceq⟩
    intro x y
    rw [hceq]
    exact convertRGB_len img hwf x y

/-- A concrete well-channelled RGBA test image. -/
def imgRGBA : Img := ⟨.RGBA, 2, 2, fun _ _ => [10, 20, 30, 128], fun _ => [0, 0, 0, 255]⟩

/-- C7 witness: the conversion theorem applied to a concrete RGBA image. -/
theorem C7_witness :
    (convert_image_to_rgb imgRGBA).mode = .RGB ∧
    Mode.channels (convert_image_to_rgb imgRGBA).mode = 3 ∧
    Mode.hasTransparency (convert_image_to_rgb imgRGBA).mode = false ∧
    (∀ x y, ((convert_image_to_rgb imgRGBA).px x y).length = 3) ∧
    (imgRGBA.mode.hasTransparency = true →
      convert_image_to_rgb imgRGBA = specWhiteComposite imgRGBA) ∧
    (imgRGBA.mode = .RGB → convert_image_to_rgb imgRGBA = imgRGBA) ∧
    (imgRGBA.mode ≠ .RGB → imgRGBA.mode.hasTransparency = false →
      convert_image_to_rgb imgRGBA = imgRGBA.convertRGB) :=
  C7_convert_rgb imgRGBA ⟨fun _ _ => rfl, fun _ => rfl⟩

/-- Closed form of `save_user_template_thumbnail`. -/
theorem save_user_template_thumbnail_eq (fs : FS) (tid orig : List Char)
    (q mw : Nat) (dOk eOk : Bool) :
    save_user_template_thumbnail fs tid orig q mw dOk eOk =
      (if fs.existsPath (splitRel orig) = false then (none, fs)
       else
        match fs.read (splitRel orig), dOk with
        | some (.image img _ _), true =>
          if eOk then
            (some (joinSegs (["user-templates".data] ++ splitSegs tid ++
              ["template-thumb.webp".data])),
             ((fs.mkdirp ["user-templates".data]).mkdirp
               (["user-templates".data] ++ splitSegs tid)).writeFile
               (["user-templates".data] ++ splitSegs tid ++
                 ["template-thumb.webp".data])
               (.image (convert_image_to_rgb (resize_image_for_thumbnail img mw))
                 "webp".data (some q)))
          else (none, (fs.mkdirp ["user-templates".data]).mkdirp
            (["user-templates".data] ++ splitSegs tid))
        | _, _ => (none, fs)) := rfl

/-- C9 counterexample: `save_cached_image` has no exception handler; on
a codec failure during the JPEG encode the error propagates instead of
being swallowed, so "neither save_user_template_thumbnail nor
save_cached_image raises" is false. -/
theorem C9_counterexample :
    (save_cached_image fsEmpty (Img.whiteRGB 1 1) "proj1".data "p1".data 1 85 1920
      false).1 = .error .encodeFailed := by
  decide

/-- C9 (amended): `save_user_template_thumbnail` swallows every internal
failure — missing source, decode failure, encode failure — and reports
an absent result (`none`) instead of propagating; `save_cached_image`,
by contrast, propagates an encode failure to the caller. -/
theorem C9_amended :
    (∀ (fs : FS) (tid orig : List Char) (q mw : Nat) (dOk eOk : Bool),
      (fs.isFile (splitRel orig) = false ∨ dOk = false ∨ eOk = false) →
      (save_user_template_thumbnail fs tid orig q mw dOk eOk).1 = none) ∧
    (∀ (fs : FS) (img : Img) (proj page : List Char) (v q mw : Nat),
      (save_cached_image fs img proj page v q mw false).1 =
        .error .encodeFailed) := by
  constructor
  · intro fs tid orig q mw dOk eOk h
    rw [save_user_template_thumbnail_eq]
    by_cases hex : fs.existsPath (splitRel orig) = false
    · rw [if_pos hex]
    · rw [if_neg hex]
      rcases h with h | h | h
      · have hr : fs.read (splitRel orig) = none := by
          cases hr2 : fs.read (splitRel orig) with
          | none => rfl
          | some d => rw [FS.isFile, hr2] at h; exact absurd h (by simp)
        rw [hr]
      · subst h
        cases hr : fs.read (splitRel orig) with
        | none => rfl
        | some d => cases d <;> rfl
      · subst h
        cases hr : fs.read (splitRel orig) with
        | none => rfl
        | some d =>
          cases d with
          | bytes n => rfl
          | image i f qq => cases dOk <;> rfl
  · intro fs img proj page v q mw
    rfl

/-- C9 witness: the amended theorem on the empty root (missing source),
plus the propagating encode failure of `save_cached_image`. -/
theorem C9_witness :
    (save_user_template_thumbnail fsEmpty "t1".data "orig.png".data 80 600
      true true).1 = none ∧
    (save_cached_image fsEmpty (Img.whiteRGB 2 2) "proj1".data "p1".data 1 85 1920
      false).1 = .error .encodeFailed :=
  ⟨C9_amended.1 fsEmpty "t1".data "orig.png".data 80 600 true true
     (Or.inl (by decide)),
   C9_amended.2 fsEmpty (Img.whiteRGB 2 2) "proj1".data "p1".data 1 85 1920⟩


end BananaSlides
